import Mathlib

/-!
Verification development for the binance-proxy repository.

The repository is a collection of serverless HTTP handlers (src/api).  This
file gives a shallow embedding of the pure computation performed by the
handlers that the claims concern:

* src/api/usdkrw.js - the ordered fallback USD/KRW price handler;
* src/api/binance-alt-summary.js - the Binance wallet/futures alt aggregation;
* src/api/position-summary.js - the unified Bybit/Bitget/OKX position summary;
* src/api/okx-balance.js and src/api/bithumb-balance.js - debug-flag handling
  and signature builders.

Modelling conventions, used throughout:

* JavaScript numbers are modelled by the rationals.  A JavaScript value that
  is converted with the Number function is modelled as an element of
  Option Rat, with none standing for NaN (and for the non-finite values,
  which cannot arise from the JSON payloads involved).  Floating point
  rounding is not modelled; the claims are settled over exact arithmetic.
* JSON documents are modelled by the inductive type JVal below.  A fetch
  whose body fails to parse as JSON carries json = none, exactly like the
  fetchJson helpers in the source, which set json to null in that case.
* The ambient timestamp fields (t, Date.now()) of the JSON responses carry
  no information about the claims and are omitted from the response models.
* The toFixed(n) display roundings of the source are modelled by round half
  up at n decimal digits (toFixN below).
* String.prototype.endsWith / startsWith / toUpperCase are modelled by
  character-list functions (strEndsWith, strStartsWith, jsToUpper), which
  agree with JavaScript on the ASCII data involved.
* Array.prototype.sort with the comparator (a, b) => b.usd - a.usd is a
  stable descending sort by the usd field; it is modelled by the stable
  insertion sort sortDescBy below.
-/

attribute [local semireducible] Rat.add Rat.mul Rat.sub Rat.inv Rat.ofScientific

/-! ## JavaScript value model -/

/-- Model of a parsed JSON document. -/
inductive JVal where
  | jnull : JVal
  | jbool : Bool → JVal
  | jnum : ℚ → JVal
  | jstr : String → JVal
  | jarr : List JVal → JVal
  | jobj : List (String × JVal) → JVal
deriving Repr

/-- Optional-chaining field access: models x?.k (none stands for
undefined or null receivers, which propagate). -/
def jget : Option JVal → String → Option JVal
  | some (JVal.jobj fs), k => (fs.find? (fun p => p.1 == k)).map (fun p => p.2)
  | _, _ => none

/-- Optional-chaining array index access: models x?.[i]. -/
def jidx : Option JVal → Nat → Option JVal
  | some (JVal.jarr xs), i => xs.get? i
  | _, _ => none

/-- JavaScript truthiness of a parsed JSON value. -/
def jtruthy : JVal → Bool
  | JVal.jnull => false
  | JVal.jbool b => b
  | JVal.jnum q => decide (q ≠ 0)
  | JVal.jstr s => decide (s ≠ "")
  | JVal.jarr _ => true
  | JVal.jobj _ => true

/-- Parse a non-empty all-digit string as a natural number. -/
def parseDigits (s : String) : Option Nat :=
  if s.isEmpty then none
  else s.data.foldl
    (fun acc c => acc.bind (fun n => if c.isDigit then some (n * 10 + (c.toNat - 48)) else none))
    (some 0)

/-- Parse a plain decimal literal, as the JavaScript Number conversion does
on strings (sign, integer part, optional fraction; exponent and hex forms
are not needed by any payload involved and are not modelled). -/
def parseDecimal (s : String) : Option ℚ :=
  let t := s.trim
  if t = "" then some 0
  else
    let sgn : ℚ := if t.data.head? = some '-' then -1 else 1
    let body : List Char :=
      match t.data with
      | '-' :: cs => cs
      | '+' :: cs => cs
      | cs => cs
    match (String.mk body).splitOn "." with
    | [i] => (parseDigits i).map (fun n => sgn * n)
    | [i, f] =>
      if i = "" && f = "" then none
      else
        let ip : Option Nat := if i = "" then some 0 else parseDigits i
        let fp : Option ℚ :=
          if f = "" then some 0
          else (parseDigits f).map (fun n => (n : ℚ) / 10 ^ f.length)
        ip.bind (fun n => fp.map (fun q => sgn * ((n : ℚ) + q)))
    | _ => none

/-- Model of the JavaScript Number conversion applied to an optional JSON
value; none is NaN.  Number of undefined is NaN, of null is 0; array and
object coercions are not exercised by the handlers and map to NaN. -/
def jsNumber : Option JVal → Option ℚ
  | none => none
  | some JVal.jnull => some 0
  | some (JVal.jbool b) => some (if b then 1 else 0)
  | some (JVal.jnum q) => some q
  | some (JVal.jstr s) => parseDecimal s
  | some (JVal.jarr _) => none
  | some (JVal.jobj _) => none

/-- Model of the toNum helper of binance-alt-summary.js and of the n helper
of position-summary.js: Number conversion with NaN defaulted to 0. -/
def toNum (v : Option ℚ) : ℚ := v.getD 0

/-- Model of the idiom v || d on an optional string (null fallback; the
empty string is falsy). -/
def jsOr (v : Option String) (d : String) : String :=
  match v with
  | some s => if s = "" then d else s
  | none => d

/-- Model of String.prototype.endsWith. -/
def strEndsWith (s suffixStr : String) : Bool := suffixStr.data.isSuffixOf s.data

/-- Model of String.prototype.startsWith. -/
def strStartsWith (s preStr : String) : Bool := preStr.data.isPrefixOf s.data

/-- Model of String.prototype.toUpperCase on ASCII data. -/
def jsToUpper (s : String) : String := String.mk (s.data.map Char.toUpper)

/-- Model of the toFixed(d) rounding of the source: round half up at d
decimal digits, over exact rationals. -/
def toFixN (d : Nat) (x : ℚ) : ℚ := (Rat.floor (x * 10 ^ d + 1 / 2) : ℚ) / 10 ^ d

/-- Rounding used for USD amounts (toFixed(2)). -/
def toFix2 (x : ℚ) : ℚ := toFixN 2 x

/-- Rounding used for position quantities (toFixed(6)). -/
def toFix6 (x : ℚ) : ℚ := toFixN 6 x

/-- Rounding used for net BTC and ETH quantities (toFixed(8)). -/
def toFix8 (x : ℚ) : ℚ := toFixN 8 x

/-! ## Stable descending insertion sort

Models Array.prototype.sort with the comparator (a, b) => b.usd - a.usd:
stable, descending in the key. -/

/-- Insert an element into a descending-sorted list, after the strictly
greater keys and before the equal ones (stability). -/
def insertDescBy {α : Type} (key : α → ℚ) (e : α) : List α → List α
  | [] => [e]
  | x :: xs => if key e < key x then x :: insertDescBy key e xs else e :: x :: xs

/-- Stable descending insertion sort by a rational key. -/
def sortDescBy {α : Type} (key : α → ℚ) : List α → List α
  | [] => []
  | x :: xs => insertDescBy key x (sortDescBy key xs)

/-- Boolean check that adjacent elements are in descending key order. -/
def isDescChainBy {α : Type} (key : α → ℚ) : List α → Bool
  | [] => true
  | [_] => true
  | a :: b :: t => decide (key b ≤ key a) && isDescChainBy key (b :: t)

/-! ## src/api/usdkrw.js -/

/-- Model of the result of the fetchJson helper of usdkrw.js: HTTP ok flag,
status (0 on transport error), parsed JSON body (none when the body did not
parse, as the helper leaves json null), and the stringified error of a
transport failure. -/
structure FetchResult where
  ok : Bool
  status : Nat
  json : Option JVal
  error : Option String

/-- Entry pushed onto the tries diagnostic array for one source. -/
structure TryEntry where
  source : String
  status : Nat
  ok : Bool
  error : Option String
deriving Repr, DecidableEq

/-- Diagnostic entry for a source, as pushed onto tries and as mapped into
the aggregate 502 body (source, status, ok, error). -/
def mkTry (source : String) (r : FetchResult) : TryEntry :=
  { source := source, status := r.status, ok := r.ok, error := r.error }

/-- Response of the usdkrw handler: success carries the rate and the source
name (HTTP 200), failure carries the error string and the tries array
(HTTP 502). -/
inductive UsdkrwResp where
  | success : ℚ → String → UsdkrwResp
  | failure : String → List TryEntry → UsdkrwResp
deriving Repr, DecidableEq

/-- HTTP status code of a usdkrw response. -/
def UsdkrwResp.statusCode : UsdkrwResp → Nat
  | success _ _ => 200
  | failure _ _ => 502

/-- Extraction for source 1 (yahoo):
Number of json.quoteResponse.result[0].regularMarketPrice. -/
def yahooRate (r : FetchResult) : Option ℚ :=
  jsNumber (jget (jidx (jget (jget r.json "quoteResponse") "result") 0) "regularMarketPrice")

/-- Test Number.isFinite(rate) and rate > 0 on a converted value (none is
NaN, hence rejected; a bare NaN > 0 comparison is also false, so the dunamu
branch, which omits the isFinite call, has the same acceptance test in this
model). -/
def isPosRate : Option ℚ → Bool
  | some q => decide (0 < q)
  | none => false

/-- Acceptance test of source 1: r.ok and a finite positive rate. -/
def yahooAccept (r : FetchResult) : Bool := r.ok && isPosRate (yahooRate r)

/-- Extraction for source 2 (dunamu): Number of json[0].basePrice. -/
def dunamuRate (r : FetchResult) : Option ℚ := jsNumber (jget (jidx r.json 0) "basePrice")

/-- Array.isArray test on the parsed body. -/
def isJArr : Option JVal → Bool
  | some (JVal.jarr _) => true
  | _ => false

/-- Truthiness of json[0], as tested by the dunamu branch. -/
def firstTruthy (j : Option JVal) : Bool :=
  match jidx j 0 with
  | some v => jtruthy v
  | none => false

/-- Acceptance test of source 2: r.ok, an array body with a truthy first
element, and Number(json[0].basePrice) > 0. -/
def dunamuAccept (r : FetchResult) : Bool :=
  r.ok && isJArr r.json && firstTruthy r.json && isPosRate (dunamuRate r)

/-- Extraction for source 3 (exchangerate.host): Number of json.rates.KRW. -/
def hostRate (r : FetchResult) : Option ℚ := jsNumber (jget (jget r.json "rates") "KRW")

/-- Acceptance test of source 3. -/
def hostAccept (r : FetchResult) : Bool := r.ok && isPosRate (hostRate r)

/-- Extraction for source 4 (open.er-api): Number of json.rates.KRW. -/
def erapiRate (r : FetchResult) : Option ℚ := jsNumber (jget (jget r.json "rates") "KRW")

/-- Acceptance test of source 4. -/
def erapiAccept (r : FetchResult) : Bool := r.ok && isPosRate (erapiRate r)

/-- Upstream responses consumed by one run of the usdkrw handler, in source
order. -/
structure UsdkrwReq where
  yahoo : FetchResult
  dunamu : FetchResult
  host : FetchResult
  erapi : FetchResult

/-- The usdkrw handler: try the four sources in order, return on the first
accepted rate, otherwise the 502 aggregate with one tries entry per
attempted source.  The second component records which sources were actually
fetched, in order, mirroring the early returns of the source: a return
before a block prevents that block's fetch. -/
def usdkrwRun (req : UsdkrwReq) : UsdkrwResp × List String :=
  if yahooAccept req.yahoo then
    (UsdkrwResp.success ((yahooRate req.yahoo).getD 0) "yahoo", ["yahoo"])
  else if dunamuAccept req.dunamu then
    (UsdkrwResp.success ((dunamuRate req.dunamu).getD 0) "dunamu", ["yahoo", "dunamu"])
  else if hostAccept req.host then
    (UsdkrwResp.success ((hostRate req.host).getD 0) "host", ["yahoo", "dunamu", "host"])
  else if erapiAccept req.erapi then
    (UsdkrwResp.success ((erapiRate req.erapi).getD 0) "erapi",
      ["yahoo", "dunamu", "host", "erapi"])
  else
    (UsdkrwResp.failure "All sources failed"
      [mkTry "yahoo" req.yahoo, mkTry "dunamu" req.dunamu,
        mkTry "host" req.host, mkTry "erapi" req.erapi],
      ["yahoo", "dunamu", "host", "erapi"])

/-- A source attempt that the handler does not accept, for the reasons the
spec enumerates: transport error or non-2xx status (ok false), or an
invalid rate (non-numeric, or zero or negative). -/
def SourceFailed (r : FetchResult) (rate : Option ℚ) : Prop :=
  r.ok = false ∨ rate = none ∨ ∃ q, rate = some q ∧ q ≤ 0

/-- Concrete request: the first source responds ok with rate 1350, the
remaining sources are never consulted. -/
def usdkrwReqFirstOk : UsdkrwReq :=
  { yahoo :=
      { ok := true, status := 200,
        json := some (JVal.jobj [("quoteResponse", JVal.jobj
          [("result", JVal.jarr [JVal.jobj [("regularMarketPrice", JVal.jnum 1350)]])])]),
        error := none }
    dunamu := { ok := false, status := 0, json := none, error := some "not reached" }
    host := { ok := false, status := 0, json := none, error := some "not reached" }
    erapi := { ok := false, status := 0, json := none, error := some "not reached" } }

/-- Concrete request for the scenario of the spec: source A answers 200
with a body that is not a number (JSON parse fails, so json is none),
source B answers 200 with rate -5, source C answers 200 with rate
1350.25. -/
def usdkrwReqScenario : UsdkrwReq :=
  { yahoo := { ok := true, status := 200, json := none, error := none }
    dunamu :=
      { ok := true, status := 200,
        json := some (JVal.jarr [JVal.jobj [("basePrice", JVal.jnum (-5))]]),
        error := none }
    host :=
      { ok := true, status := 200,
        json := some (JVal.jobj [("rates", JVal.jobj [("KRW", JVal.jnum 1350.25)])]),
        error := none }
    erapi := { ok := false, status := 0, json := none, error := some "not reached" } }

/-- Concrete request in which every source fails: a transport error, a 404,
a 200 with a non-numeric body and a 200 with a zero rate. -/
def usdkrwReqAllFail : UsdkrwReq :=
  { yahoo := { ok := false, status := 0, json := none, error := some "AbortError" }
    dunamu := { ok := false, status := 404, json := none, error := none }
    host := { ok := true, status := 200, json := some (JVal.jstr "oops"), error := none }
    erapi :=
      { ok := true, status := 200,
        json := some (JVal.jobj [("rates", JVal.jobj [("KRW", JVal.jnum 0)])]),
        error := none } }

/-! ## src/api/binance-alt-summary.js -/

/-- Excluded assets of binance-alt-summary.js (the EXCLUDED set). -/
def EXCLUDED : List String := ["BTC", "ETH", "USDT", "USDC"]

/-- Minimum USD inclusion threshold of the aggregators (MIN_USD). -/
def MIN_USD : ℚ := 100

/-- Model of baseAssetFromSymbol: strip a single trailing USDT, USDC or
BUSD quote suffix (the regex (USDT|USDC|BUSD)$ with empty replacement). -/
def baseAssetFromSymbol (symbol : String) : String :=
  if strEndsWith symbol "USDT" then String.mk (symbol.data.take (symbol.data.length - 4))
  else if strEndsWith symbol "USDC" then String.mk (symbol.data.take (symbol.data.length - 4))
  else if strEndsWith symbol "BUSD" then String.mk (symbol.data.take (symbol.data.length - 4))
  else symbol

/-- One element of the fapi/v2/positionRisk response consumed by the
futures loop of binance-alt-summary.js.  Raw numeric fields are carried as
their Number conversion (none for a missing or non-numeric field); symbol
is already stringified as in String(pos.symbol or empty). -/
structure BinancePos where
  symbol : String
  positionAmt : Option ℚ
  positionSide : Option String
  notional : Option ℚ
  markPrice : Option ℚ

/-- Entry of altFuturesTop, with the rounded display fields the source
builds (markPrice and notional become null when the raw value is falsy). -/
structure FutTop where
  symbol : String
  base : String
  positionSide : String
  positionAmt : ℚ
  markPrice : Option ℚ
  notional : Option ℚ
  usd : ℚ
deriving Repr, DecidableEq

/-- Loop body of the futures aggregation of binance-alt-summary.js (lines
82-112): skip flat positions, keep only the USDT quote (QUOTES), drop the
EXCLUDED bases, value the position as the absolute value of notional,
falling back to positionAmt times markPrice, and accumulate positions of
at least MIN_USD into the running total and the top list. -/
def futStep (acc : ℚ × List FutTop) (pos : BinancePos) : ℚ × List FutTop :=
  let amt := toNum pos.positionAmt
  if amt = 0 then acc
  else if strEndsWith pos.symbol "USDT" = false then acc
  else
    let base := baseAssetFromSymbol pos.symbol
    if EXCLUDED.contains base then acc
    else
      let notional := toNum pos.notional
      let mark := toNum pos.markPrice
      let usd := |if notional = 0 then amt * mark else notional|
      if usd = 0 then acc
      else if MIN_USD ≤ usd then
        (acc.1 + usd,
          acc.2 ++ [{
            symbol := pos.symbol
            base := base
            positionSide := jsOr pos.positionSide "BOTH"
            positionAmt := toFix6 amt
            markPrice := if mark = 0 then none else some (toFix6 mark)
            notional := if notional = 0 then none else some (toFix2 notional)
            usd := toFix2 usd }])
      else acc

/-- Futures aggregation of binance-alt-summary.js: fold the positions,
then sort the top list descending by usd and truncate to 25 entries.  The
first component is the exact running total altFuturesUSD (the handler
rounds it with toFixed(2) when assembling the response). -/
def binanceAltFutures (positions : List BinancePos) : ℚ × List FutTop :=
  let acc := positions.foldl futStep (0, [])
  (acc.1, (sortDescBy (fun e => e.usd) acc.2).take 25)

/-- The assetUSD map of binance-alt-summary.js, as an insertion-ordered
association list (the iteration and update order of a JavaScript Map). -/
abbrev KVMap := List (String × ℚ)

/-- Model of map.get. -/
def mapGet (m : KVMap) (k : String) : Option ℚ :=
  (m.find? (fun p => p.1 == k)).map (fun p => p.2)

/-- Model of map.set: update an existing key in place, else append. -/
def mapSet (m : KVMap) (k : String) (v : ℚ) : KVMap :=
  if m.any (fun p => p.1 == k) then m.map (fun p => if p.1 == k then (k, v) else p)
  else m ++ [(k, v)]

/-- Model of pushUSD of binance-alt-summary.js: ignore empty or excluded
assets and non-finite or non-positive amounts, otherwise add the amount to
the asset's entry (finiteness is inherent in the rational model). -/
def pushUSD (m : KVMap) (asset : String) (usd : ℚ) : KVMap :=
  if asset = "" ∨ EXCLUDED.contains asset then m
  else if usd ≤ 0 then m
  else mapSet m asset ((mapGet m asset).getD 0 + usd)

/-- The guarded call pattern common to every pushUSD call site of the
handler: if (usd >= MIN_USD) pushUSD(assetUSD, asset, usd). -/
def pushIfMin (m : KVMap) (asset : String) (usd : ℚ) : KVMap :=
  if MIN_USD ≤ usd then pushUSD m asset usd else m

/-- Entry of altWalletTop (asset plus rounded USD value). -/
structure WalletEntry where
  asset : String
  usd : ℚ
deriving Repr, DecidableEq

/-- Display entry built from one map binding: the asset and the toFixed(2)
rounding of its accumulated USD value. -/
def walletEntryOf (p : String × ℚ) : WalletEntry := { asset := p.1, usd := toFix2 p.2 }

/-- Wallet total and top construction of binance-alt-summary.js (lines
241-248): accumulate altWalletUSD and the display entries over the map,
then sort descending by usd and truncate to 25.  The first component is
the exact total (rounded with toFixed(2) at response assembly). -/
def buildWalletTop (assetUSD : KVMap) : ℚ × List WalletEntry :=
  let acc := assetUSD.foldl
    (fun acc p => (acc.1 + p.2, acc.2 ++ [walletEntryOf p]))
    ((0 : ℚ), ([] : List WalletEntry))
  (acc.1, (sortDescBy (fun e => e.usd) acc.2).take 25)

/-- Debug-mode test of binance-alt-summary.js (line 48): the flag is on
exactly when the query parameter debug is the string 1 or the string
true. -/
def binanceDebugMode (debugQ : Option String) : Bool :=
  debugQ == some "1" || debugQ == some "true"

/-- Success response of binance-alt-summary.js: the aggregate fields of
lines 250-259, with the optional raw diagnostics field attached by line
260 (if debugMode, out._debug = dbg).  The diagnostics payload type is
abstract. -/
structure BinanceOut (δ : Type) where
  altWalletUSD : ℚ
  altWalletTop : List WalletEntry
  altFuturesUSD : ℚ
  altFuturesTop : List FutTop
  minUSD : ℚ
  excluded : List String
  path : String
  debugField : Option δ

/-- Response assembly of binance-alt-summary.js (lines 250-262). -/
def binanceAssemble (δ : Type) (debugQ : Option String)
    (wallet : ℚ × List WalletEntry) (fut : ℚ × List FutTop)
    (path : String) (dbg : δ) : BinanceOut δ :=
  { altWalletUSD := toFix2 wallet.1
    altWalletTop := wallet.2
    altFuturesUSD := toFix2 fut.1
    altFuturesTop := fut.2
    minUSD := MIN_USD
    excluded := EXCLUDED
    path := path
    debugField := if binanceDebugMode debugQ then some dbg else none }

/-! ## src/api/position-summary.js, Bybit summary -/

/-- One element of the Bybit v5 position list consumed by getBybitSummary.
Raw numeric fields are carried as their Number conversion; symbol is the
stringified symbol. -/
structure BybitPos where
  symbol : String
  size : Option ℚ
  side : Option String
  positionValue : Option ℚ
  markPrice : Option ℚ

/-- Entry of the Bybit altFuturesTop list. -/
structure BybitTop where
  symbol : String
  side : String
  size : ℚ
  markPrice : Option ℚ
  usd : ℚ
  direction : String
deriving Repr, DecidableEq

/-- Accumulator of the Bybit position loop. -/
structure BybitAcc where
  btcNet : ℚ
  ethNet : ℚ
  altUSD : ℚ
  top : List BybitTop

/-- Loop body of getBybitSummary (lines 72-100): skip empty symbols and
flat sizes, derive the signed quantity from the BUY/SELL side, value the
position with the signed positionValue (falling back to signedQty times
markPrice), and route BTC- and ETH-prefixed symbols to the net quantities
while alt positions of absolute value at least 100 USD accumulate, signed,
into altUSD and the top list. -/
def bybitStep (acc : BybitAcc) (p : BybitPos) : BybitAcc :=
  let symbol := p.symbol
  let size := toNum p.size
  if symbol = "" ∨ size = 0 then acc
  else
    let side := jsToUpper (jsOr p.side "")
    let signedQty := if side = "BUY" then size else if side = "SELL" then -size else 0
    let pv := toNum p.positionValue
    let usd :=
      if pv = 0 then
        (let mark := toNum p.markPrice
         if mark = 0 then 0 else signedQty * mark)
      else if side = "BUY" then pv else -pv
    if strStartsWith symbol "BTC" then { acc with btcNet := acc.btcNet + signedQty }
    else if strStartsWith symbol "ETH" then { acc with ethNet := acc.ethNet + signedQty }
    else if 100 ≤ |usd| then
      { acc with
        altUSD := acc.altUSD + usd
        top := acc.top ++ [{
          symbol := symbol
          side := side
          size := toFix6 size
          markPrice := match p.markPrice with
            | some m => if m = 0 then none else some (toFix6 m)
            | none => none
          usd := toFix2 usd
          direction := if 0 < usd then "LONG" else "SHORT" }] }
    else acc

/-- Fold of the Bybit position loop. -/
def bybitAgg (list : List BybitPos) : BybitAcc :=
  list.foldl bybitStep { btcNet := 0, ethNet := 0, altUSD := 0, top := [] }

/-- Futures part of the Bybit summary response. -/
structure BybitFutures where
  btcNetQty : ℚ
  ethNetQty : ℚ
  altFuturesUSD : ℚ
  altFuturesTop : List BybitTop
deriving Repr, DecidableEq

/-- getBybitSummary of position-summary.js, from the parsed position list
to the futures part of the response (lines 69-112): fold the loop, sort
the top list descending by usd and truncate to 25, rounding the aggregate
figures for display. -/
def getBybitSummary (list : List BybitPos) : BybitFutures :=
  let acc := bybitAgg list
  { btcNetQty := toFix8 acc.btcNet
    ethNetQty := toFix8 acc.ethNet
    altFuturesUSD := toFix2 acc.altUSD
    altFuturesTop := (sortDescBy (fun e => e.usd) acc.top).take 25 }

/-! ## src/api/position-summary.js, Bitget summary -/

/-- Model of the idiom a || b on two raw numeric fields: the first operand
is used when truthy (present and non-zero; a NaN-producing raw value is
falsy), otherwise the second. -/
def jsOrNum (a b : Option ℚ) : Option ℚ :=
  match a with
  | some q => if q = 0 then b else some q
  | none => b

/-- Truthiness of a raw numeric field (present and non-zero). -/
def jsTruthyNum : Option ℚ → Bool
  | some q => decide (q ≠ 0)
  | none => false

/-- Occurrence of a character sequence inside another. -/
def strIncludesAux (needle : List Char) : List Char → Bool
  | [] => needle.isEmpty
  | c :: cs => needle.isPrefixOf (c :: cs) || strIncludesAux needle cs

/-- Model of String.prototype.includes. -/
def strIncludes (s sub : String) : Bool := strIncludesAux sub.data s.data

/-- One element of the Bitget all-position response consumed by
getBitgetSummary, with every raw field the loop reads through its
fallback chains. -/
structure BitgetPos where
  symbol : Option String
  instId : Option String
  holdSide : Option String
  posSide : Option String
  total : Option ℚ
  totalPos : Option ℚ
  totalSize : Option ℚ
  size : Option ℚ
  usdt : Option ℚ
  positionValue : Option ℚ
  margin : Option ℚ
  markPrice : Option ℚ
  lastPr : Option ℚ

/-- Loop body of getBitgetSummary (lines 160-193): resolve the instrument
id, hold side and size through the fallback chains, skip empty ids and
flat sizes, value the position with the signed usdt field (falling back to
positionValue or margin, then to signedQty times the mark price), and
route BTC and ETH instruments to the net quantities while alt positions of
absolute value at least 100 USD accumulate, signed, into altUSD and the
top list.  The accumulator and entry shapes coincide with the Bybit ones
in the source and reuse those structures. -/
def bitgetStep (acc : BybitAcc) (p : BitgetPos) : BybitAcc :=
  let instId := jsOr p.symbol (jsOr p.instId "")
  let holdSide := jsToUpper (jsOr p.holdSide (jsOr p.posSide ""))
  let total := toNum (jsOrNum p.total (jsOrNum p.totalPos (jsOrNum p.totalSize p.size)))
  if instId = "" ∨ total = 0 then acc
  else
    let signedQty := if holdSide = "LONG" then total
      else if holdSide = "SHORT" then -total else 0
    let usd :=
      if jsTruthyNum p.usdt then
        (if holdSide = "LONG" then toNum p.usdt else -toNum p.usdt)
      else if jsTruthyNum p.positionValue ∨ jsTruthyNum p.margin then
        (let v := toNum (jsOrNum p.positionValue p.margin)
         if holdSide = "LONG" then v else -v)
      else signedQty * toNum (jsOrNum p.markPrice p.lastPr)
    if strStartsWith instId "BTC" ∨ strIncludes instId "BTCUSDT" then
      { acc with btcNet := acc.btcNet + signedQty }
    else if strStartsWith instId "ETH" ∨ strIncludes instId "ETHUSDT" then
      { acc with ethNet := acc.ethNet + signedQty }
    else if 100 ≤ |usd| then
      { acc with
        altUSD := acc.altUSD + usd
        top := acc.top ++ [{
          symbol := instId
          side := holdSide
          size := toFix6 total
          markPrice := match p.markPrice with
            | some m => if m = 0 then none else some (toFix6 m)
            | none => none
          usd := toFix2 usd
          direction := if 0 < usd then "LONG" else "SHORT" }] }
    else acc

/-- Fold of the Bitget position loop. -/
def bitgetAgg (list : List BitgetPos) : BybitAcc :=
  list.foldl bitgetStep { btcNet := 0, ethNet := 0, altUSD := 0, top := [] }

/-- getBitgetSummary of position-summary.js, from the parsed position list
to the futures part of the response (lines 157-205): fold the loop, sort
the top list descending by usd and truncate to 25, rounding the aggregate
figures for display. -/
def getBitgetSummary (list : List BitgetPos) : BybitFutures :=
  let acc := bitgetAgg list
  { btcNetQty := toFix8 acc.btcNet
    ethNetQty := toFix8 acc.ethNet
    altFuturesUSD := toFix2 acc.altUSD
    altFuturesTop := (sortDescBy (fun e => e.usd) acc.top).take 25 }

/-! ## src/api/position-summary.js, OKX summary -/

/-- Rounding used for OKX contract counts (toFixed(4)). -/
def toFix4 (x : ℚ) : ℚ := toFixN 4 x

/-- One element of the OKX SWAP position list consumed by getOkxSummary.
The notionalUsd field models the "p.notionalUsd is not undefined" test:
some means the field is present with its numeric value (a present
non-numeric value does not occur in this payload and is not modelled). -/
structure OkxPos where
  instId : String
  posSide : Option String
  pos : Option ℚ
  sz : Option ℚ
  notionalUsd : Option ℚ
  markPx : Option ℚ

/-- Entry of the OKX altFuturesTop list. -/
structure OkxTop where
  instId : String
  side : String
  contracts : ℚ
  ctVal : ℚ
  coinQty : ℚ
  markPx : Option ℚ
  usd : ℚ
  direction : String
deriving Repr, DecidableEq

/-- Accumulator of the OKX position loop. -/
structure OkxAcc where
  btcNet : ℚ
  ethNet : ℚ
  altUSD : ℚ
  top : List OkxTop

/-- Lookup of the per-instrument contract value: the instMap built from
the instruments endpoint stores n(it.ctVal) per instId, and a missing
instrument yields the empty object whose ctVal converts to the default
0. -/
def okxCtVal (instMap : List (String × ℚ)) (instId : String) : ℚ :=
  ((instMap.find? (fun q => q.1 == instId)).map (fun q => q.2)).getD 0

/-- Loop body of getOkxSummary (lines 273-308): keep only SWAP
instruments, skip empty ids and flat sizes, convert contracts to coin
quantity through ctVal with the SHORT sign, value the position with the
signed notionalUsd when present (falling back to coinQty times the mark
price), and route BTC- and ETH- instruments to the net quantities while
alt positions of absolute value at least 100 USD accumulate, signed, into
altUSD and the top list. -/
def okxStep (instMap : List (String × ℚ)) (acc : OkxAcc) (p : OkxPos) : OkxAcc :=
  let instId := p.instId
  if strEndsWith instId "-SWAP" = false then acc
  else
    let side := jsToUpper (jsOr p.posSide "")
    let sz := toNum (jsOrNum p.pos p.sz)
    if instId = "" ∨ sz = 0 then acc
    else
      let ctVal := okxCtVal instMap instId
      let coinQty := if ctVal = 0 then 0
        else sz * (if side = "SHORT" then -1 else 1) * ctVal
      let usd :=
        match p.notionalUsd with
        | some nu => if side = "SHORT" then -nu else nu
        | none => coinQty * toNum p.markPx
      if strStartsWith instId "BTC-" then { acc with btcNet := acc.btcNet + coinQty }
      else if strStartsWith instId "ETH-" then { acc with ethNet := acc.ethNet + coinQty }
      else if 100 ≤ |usd| then
        { acc with
          altUSD := acc.altUSD + usd
          top := acc.top ++ [{
            instId := instId
            side := side
            contracts := toFix4 sz
            ctVal := ctVal
            coinQty := toFix8 coinQty
            markPx := match p.markPx with
              | some m => if m = 0 then none else some (toFix6 m)
              | none => none
            usd := toFix2 usd
            direction := if 0 < usd then "LONG" else "SHORT" }] }
      else acc

/-- Fold of the OKX position loop. -/
def okxAgg (instMap : List (String × ℚ)) (list : List OkxPos) : OkxAcc :=
  list.foldl (okxStep instMap) { btcNet := 0, ethNet := 0, altUSD := 0, top := [] }

/-- Futures part of the OKX summary response. -/
structure OkxFutures where
  btcNetQty : ℚ
  ethNetQty : ℚ
  altFuturesUSD : ℚ
  altFuturesTop : List OkxTop
deriving Repr, DecidableEq

/-- getOkxSummary of position-summary.js, from the parsed position list
and the instrument map to the futures part of the response (lines
247-321). -/
def getOkxSummary (instMap : List (String × ℚ)) (list : List OkxPos) : OkxFutures :=
  let acc := okxAgg instMap list
  { btcNetQty := toFix8 acc.btcNet
    ethNetQty := toFix8 acc.ethNet
    altFuturesUSD := toFix2 acc.altUSD
    altFuturesTop := (sortDescBy (fun e => e.usd) acc.top).take 25 }

/-! ## src/api/position-summary.js, unified handler (exchange=all) -/

/-- The three aggregate figures the unified handler reads from a
per-exchange summary (v.futures.btcNetQty, ethNetQty, altFuturesUSD).  The
per-exchange top lists are passed through verbatim and are not read by the
aggregation, so they are elided from this input model. -/
structure ExFutures where
  btcNetQty : ℚ
  ethNetQty : ℚ
  altFuturesUSD : ℚ
deriving Repr, DecidableEq

/-- A fulfilled per-exchange summary (exchange tag plus futures part). -/
structure ExSummary where
  exchange : String
  futures : ExFutures
deriving Repr, DecidableEq

/-- Outcome of one Promise.allSettled slot for a per-exchange summary. -/
inductive Settled where
  | fulfilled : ExSummary → Settled
  | rejected : String → Settled
deriving Repr, DecidableEq

/-- Entry stored in the results object: the summary when fulfilled, an
object with an error message when rejected (lines 347-355). -/
inductive ExEntry where
  | summary : ExSummary → ExEntry
  | error : String → ExEntry
deriving Repr, DecidableEq

/-- Conversion of one settled outcome to its results entry. -/
def settleEntry : Settled → ExEntry
  | Settled.fulfilled v => ExEntry.summary v
  | Settled.rejected m => ExEntry.error m

/-- Contribution of one results entry to an aggregate figure: an error
entry has no futures field and is skipped by the loop (contributes zero);
a summary contributes n(v.futures.x), and n is the identity on the
already-numeric figure. -/
def entryContrib (f : ExFutures → ℚ) : ExEntry → ℚ
  | ExEntry.summary v => f v.futures
  | ExEntry.error _ => 0

/-- The response of the unified handler for exchange=all: always HTTP 200,
one entry per exchange, plus the aggregate (lines 343-376). -/
structure AllResponse where
  statusCode : Nat
  bybit : ExEntry
  bitget : ExEntry
  okx : ExEntry
  aggregate : ExFutures
deriving Repr, DecidableEq

/-- The exchange=all path of the position-summary handler: settle the
three summaries, store each outcome (value or error object), and sum the
aggregate figures over the entries that have a futures field. -/
def positionSummaryAll (b g o : Settled) : AllResponse :=
  let rb := settleEntry b
  let rg := settleEntry g
  let ro := settleEntry o
  let entries := [rb, rg, ro]
  let btc := entries.foldl (fun s e => s + entryContrib (fun f => f.btcNetQty) e) 0
  let eth := entries.foldl (fun s e => s + entryContrib (fun f => f.ethNetQty) e) 0
  let alt := entries.foldl (fun s e => s + entryContrib (fun f => f.altFuturesUSD) e) 0
  { statusCode := 200
    bybit := rb
    bitget := rg
    okx := ro
    aggregate := {
      btcNetQty := toFix8 btc
      ethNetQty := toFix8 eth
      altFuturesUSD := toFix2 alt } }

/-! ## Signature builders

The HMAC primitives live in the node crypto library, outside the
repository; each is a fixed deterministic function of the secret and the
message and is passed here as an explicit function argument, so that the
builders below contain exactly the canonical-string construction of the
source. -/

/-- bybitSign of position-summary.js (lines 38-41): HMAC-SHA256 hex of
timestamp, apiKey, recvWindow and the query string, keyed by the
secret. -/
def bybitSign (hmacSha256Hex : String → String → String)
    (timestamp apiKey recvWindow queryString secretKey : String) : String :=
  hmacSha256Hex secretKey (timestamp ++ apiKey ++ recvWindow ++ queryString)

/-- bitgetSign of position-summary.js (lines 123-127): HMAC-SHA256 base64
of the prehash ts, uppercased method, path, optional question-mark query
and body, keyed by the secret. -/
def bitgetSign (hmacSha256Base64 : String → String → String)
    (ts method path query body secret : String) : String :=
  let qs := if query = "" then "" else "?" ++ query
  hmacSha256Base64 secret (ts ++ jsToUpper method ++ path ++ qs ++ body)

/-- okxSign of okx-balance.js (lines 77-80): HMAC-SHA256 base64 of the
prehash ts, method, path and body, keyed by the secret. -/
def okxSign (hmacSha256Base64 : String → String → String)
    (ts method path body secret : String) : String :=
  hmacSha256Base64 secret (ts ++ method ++ path ++ body)

/-! ## src/api/bithumb-balance.js -/

/-- The sent diagnostics of one bithumb tryCall attempt (the raw body and
the exact prehash string that was signed). -/
structure BithumbSent where
  bodyStr : String
  toSign : String
deriving Repr, DecidableEq

/-- Result of one bithumb tryCall attempt: ok flag, mode label, parsed
response data, and the sent diagnostics. -/
structure BithumbTry where
  ok : Bool
  mode : String
  data : Option JVal
  sent : BithumbSent

/-- Model of parseFloat applied to the idiom x || "0": a falsy or missing
value parses as zero; a numeric JSON value is returned as is; a string is
parsed as a decimal (the parseFloat prefix-parsing of malformed strings is
not exercised by the total_krw payload and is not modelled). -/
def jsParseFloatD : Option JVal → ℚ
  | some (JVal.jnum q) => q
  | some (JVal.jstr s) => (parseDecimal s).getD 0
  | _ => 0

/-- The total_krw extraction of the bithumb success path:
parseFloat(r.data?.data?.total_krw || "0"). -/
def bithumbKrwOf (r : BithumbTry) : ℚ := jsParseFloatD (jget (jget r.data "data") "total_krw")

/-- Success body of the bithumb handler: totalKRW, mode, the raw upstream
response and the debug field that line 56 and line 63 attach without
consulting any query parameter. -/
structure BithumbSuccessBody where
  totalKRW : ℚ
  mode : String
  raw : Option JVal
  debugInfo : Option BithumbSent

/-- Response of the bithumb handler. -/
inductive BithumbResp where
  | success : BithumbSuccessBody → BithumbResp
  | failure : String → List BithumbTry → BithumbResp

/-- The bithumb handler after the two tryCall attempts (lines 53-67).  The
first argument is the debug query parameter of the request, which the
handler never reads; it is kept in the signature to make that explicit. -/
def bithumbRespond (debugQ : Option String) (r1 r2 : BithumbTry) : BithumbResp :=
  if r1.ok then
    BithumbResp.success {
      totalKRW := bithumbKrwOf r1
      mode := r1.mode
      raw := r1.data
      debugInfo := some r1.sent }
  else if r2.ok then
    BithumbResp.success {
      totalKRW := bithumbKrwOf r2
      mode := r2.mode
      raw := r2.data
      debugInfo := some r2.sent }
  else
    BithumbResp.failure "Both strategies failed" [r1, r2]

/-- Whether a bithumb response carries the raw debug diagnostics. -/
def bithumbDebugShown : BithumbResp → Bool
  | BithumbResp.success b => b.debugInfo.isSome
  | BithumbResp.failure _ _ => false

/-- Whether a bithumb response is a success. -/
def BithumbResp.isSuccess : BithumbResp → Bool
  | BithumbResp.success _ => true
  | BithumbResp.failure _ _ => false

/-! ## Boolean invariant checkers and concrete inputs -/

/-- Every futures top entry is worth at least the threshold. -/
def allMinUsdFut (l : List FutTop) : Bool := l.all (fun e => decide (MIN_USD ≤ e.usd))

/-- Every Bybit top entry has absolute value at least the threshold. -/
def allAbsMinUsdBybit (l : List BybitTop) : Bool := l.all (fun e => decide (MIN_USD ≤ |e.usd|))

/-- Every wallet top entry is worth at least the threshold. -/
def allMinUsdWallet (l : List WalletEntry) : Bool := l.all (fun e => decide (MIN_USD ≤ e.usd))

/-- Every wallet top entry has a strictly positive value and an asset
outside the excluded set. -/
def walletTopOk (l : List WalletEntry) : Bool :=
  l.all (fun e => decide (0 < e.usd) && !(EXCLUDED.contains e.asset))

/-- The stated pushUSD invariant of the assetUSD map: non-empty keys
outside the excluded set, strictly positive values. -/
def walletInvPos (m : KVMap) : Bool :=
  m.all (fun p => !(p.1 == "") && !(EXCLUDED.contains p.1) && decide (0 < p.2))

/-- The invariant the handler's guarded call sites maintain: non-empty
keys outside the excluded set, values of at least MIN_USD. -/
def walletInvMin (m : KVMap) : Bool :=
  m.all (fun p => !(p.1 == "") && !(EXCLUDED.contains p.1) && decide (MIN_USD ≤ p.2))

/-- Concrete positionRisk payload with one long alt position of notional
+300 USD and one short alt position of notional -200 USD. -/
def binanceNetScenario : List BinancePos :=
  [{ symbol := "AAAUSDT"
     positionAmt := some 10
     positionSide := some "LONG"
     notional := some 300
     markPrice := some 30 },
   { symbol := "AAAUSDT"
     positionAmt := some (-20)
     positionSide := some "SHORT"
     notional := some (-200)
     markPrice := some 10 }]

/-- The same scenario as a Bybit position list: one BUY worth 300 USD and
one SELL worth 200 USD on an alt symbol. -/
def bybitNetScenario : List BybitPos :=
  [{ symbol := "AAAUSDT"
     size := some 10
     side := some "Buy"
     positionValue := some 300
     markPrice := none },
   { symbol := "AAAUSDT"
     size := some 20
     side := some "Sell"
     positionValue := some 200
     markPrice := none }]

/-- A long Bybit alt position worth 200 USD. -/
def bybitLongPos : BybitPos :=
  { symbol := "AAAUSDT"
    size := some 100
    side := some "Buy"
    positionValue := some 200
    markPrice := none }

/-- A short Bybit alt position worth 200 USD. -/
def bybitShortPos : BybitPos :=
  { symbol := "AAAUSDT"
    size := some 100
    side := some "Sell"
    positionValue := some 200
    markPrice := none }

/-- Twenty-six qualifying Bybit positions: the 25-entry cap drops the one
short position from the top list. -/
def bybitCapList : List BybitPos := List.replicate 25 bybitLongPos ++ [bybitShortPos]

/-- Concrete assetUSD map reachable through the guarded pushUSD calls. -/
def walletMapW : KVMap := [("AAA", 150), ("BBB", 2000)]

/-- The long +300 / short -200 scenario as a Bitget position list. -/
def bitgetNetScenario : List BitgetPos :=
  [{ symbol := some "AAAUSDT"
     instId := none
     holdSide := some "long"
     posSide := none
     total := some 10
     totalPos := none
     totalSize := none
     size := none
     usdt := some 300
     positionValue := none
     margin := none
     markPrice := some 30
     lastPr := none },
   { symbol := some "AAAUSDT"
     instId := none
     holdSide := some "short"
     posSide := none
     total := some 20
     totalPos := none
     totalSize := none
     size := none
     usdt := some 200
     positionValue := none
     margin := none
     markPrice := some 10
     lastPr := none }]

/-- Instrument map giving the scenario instrument a contract value of 1
coin per contract. -/
def okxInstMapW : List (String × ℚ) := [("AAA-USDT-SWAP", 1)]

/-- The long +300 / short -200 scenario as an OKX position list. -/
def okxNetScenario : List OkxPos :=
  [{ instId := "AAA-USDT-SWAP"
     posSide := some "long"
     pos := some 300
     sz := none
     notionalUsd := some 300
     markPx := some 1 },
   { instId := "AAA-USDT-SWAP"
     posSide := some "short"
     pos := some 200
     sz := none
     notionalUsd := some 200
     markPx := some 1 }]

/-- Concrete successful bithumb attempt. -/
def bithumbTryOk : BithumbTry :=
  { ok := true
    mode := "mode1"
    data := some (JVal.jobj [("data", JVal.jobj [("total_krw", JVal.jstr "1234")])])
    sent := { bodyStr := "endpoint=/info/balance&currency=ALL", toSign := "prehash-1" } }

/-- Concrete failed bithumb attempt. -/
def bithumbTryFail : BithumbTry :=
  { ok := false
    mode := "mode2"
    data := none
    sent := { bodyStr := "endpoint=/info/balance&currency=ALL", toSign := "prehash-2" } }

/-! ## Theorems -/

/-- A converted rate that is missing (NaN) or not strictly positive fails
the acceptance test. -/
theorem isPosRate_eq_false {rate : Option ℚ}
    (h : rate = none ∨ ∃ q, rate = some q ∧ q ≤ 0) : isPosRate rate = false := by
  rcases h with h | ⟨q, hq, hle⟩
  · simp [h, isPosRate]
  · simp [hq, isPosRate, not_lt.2 hle]

/-- A failed yahoo attempt is not accepted. -/
theorem yahooAccept_eq_false {r : FetchResult} (h : SourceFailed r (yahooRate r)) :
    yahooAccept r = false := by
  rcases h with h | h
  · simp [yahooAccept, h]
  · simp [yahooAccept, isPosRate_eq_false h]

/-- A failed dunamu attempt is not accepted. -/
theorem dunamuAccept_eq_false {r : FetchResult} (h : SourceFailed r (dunamuRate r)) :
    dunamuAccept r = false := by
  rcases h with h | h
  · simp [dunamuAccept, h]
  · simp [dunamuAccept, isPosRate_eq_false h]

/-- A failed host attempt is not accepted. -/
theorem hostAccept_eq_false {r : FetchResult} (h : SourceFailed r (hostRate r)) :
    hostAccept r = false := by
  rcases h with h | h
  · simp [hostAccept, h]
  · simp [hostAccept, isPosRate_eq_false h]

/-- A failed erapi attempt is not accepted. -/
theorem erapiAccept_eq_false {r : FetchResult} (h : SourceFailed r (erapiRate r)) :
    erapiAccept r = false := by
  rcases h with h | h
  · simp [erapiAccept, h]
  · simp [erapiAccept, isPosRate_eq_false h]

/-- C2: if the first source responds successfully with a finite rate
strictly greater than zero, the handler returns HTTP 200 with that rate and
that source's name immediately, and no subsequent source is invoked. -/
theorem usdkrw_first_source_short_circuits (req : UsdkrwReq) (q : ℚ)
    (hok : req.yahoo.ok = true) (hrate : yahooRate req.yahoo = some q) (hpos : 0 < q) :
    (usdkrwRun req).1 = UsdkrwResp.success q "yahoo" ∧
    (usdkrwRun req).1.statusCode = 200 ∧
    (usdkrwRun req).2 = ["yahoo"] := by
  have hacc : yahooAccept req.yahoo = true := by
    simp [yahooAccept, hok, hrate, isPosRate, hpos]
  simp [usdkrwRun, hacc, hrate, UsdkrwResp.statusCode]

/-- Witness for C2 at a concrete request with first-source rate 1350. -/
theorem usdkrw_first_source_short_circuits_witness :
    (usdkrwRun usdkrwReqFirstOk).1 = UsdkrwResp.success 1350 "yahoo" ∧
    (usdkrwRun usdkrwReqFirstOk).1.statusCode = 200 ∧
    (usdkrwRun usdkrwReqFirstOk).2 = ["yahoo"] :=
  usdkrw_first_source_short_circuits usdkrwReqFirstOk 1350 (by decide) (by decide) (by decide)

/-- C3: a 200 answer with a non-numeric or zero-or-negative rate is a soft
failure and the loop continues; with the first two sources soft-failing and
the third valid, the handler returns the third source's rate and name. -/
theorem usdkrw_soft_failure_continues (req : UsdkrwReq) (q : ℚ)
    (h1ok : req.yahoo.ok = true)
    (h1 : yahooRate req.yahoo = none ∨ ∃ p, yahooRate req.yahoo = some p ∧ p ≤ 0)
    (h2ok : req.dunamu.ok = true)
    (h2 : dunamuRate req.dunamu = none ∨ ∃ p, dunamuRate req.dunamu = some p ∧ p ≤ 0)
    (h3ok : req.host.ok = true) (h3 : hostRate req.host = some q) (hpos : 0 < q) :
    (usdkrwRun req).1 = UsdkrwResp.success q "host" ∧
    (usdkrwRun req).1.statusCode = 200 ∧
    (usdkrwRun req).2 = ["yahoo", "dunamu", "host"] := by
  have hy : yahooAccept req.yahoo = false := yahooAccept_eq_false (Or.inr h1)
  have hd : dunamuAccept req.dunamu = false := dunamuAccept_eq_false (Or.inr h2)
  have hh : hostAccept req.host = true := by
    simp [hostAccept, h3ok, h3, isPosRate, hpos]
  simp [usdkrwRun, hy, hd, hh, h3, UsdkrwResp.statusCode]

/-- Witness for C3 at the scenario of the spec: sources answering a
non-numeric body, rate -5 and rate 1350.25 yield 1350.25 from the third
source. -/
theorem usdkrw_soft_failure_continues_witness :
    (usdkrwRun usdkrwReqScenario).1 = UsdkrwResp.success 1350.25 "host" ∧
    (usdkrwRun usdkrwReqScenario).1.statusCode = 200 ∧
    (usdkrwRun usdkrwReqScenario).2 = ["yahoo", "dunamu", "host"] :=
  usdkrw_soft_failure_continues usdkrwReqScenario 1350.25 (by decide)
    (Or.inl (by decide)) (by decide)
    (Or.inr ⟨-5, by decide, by norm_num⟩) (by decide) (by decide) (by norm_num)

/-- C4: when every source fails, the handler returns the HTTP 502 aggregate
whose tries array has exactly one diagnostic entry (source, status, ok,
error) per attempted source, in attempt order. -/
theorem usdkrw_all_fail_aggregate (req : UsdkrwReq)
    (h1 : SourceFailed req.yahoo (yahooRate req.yahoo))
    (h2 : SourceFailed req.dunamu (dunamuRate req.dunamu))
    (h3 : SourceFailed req.host (hostRate req.host))
    (h4 : SourceFailed req.erapi (erapiRate req.erapi)) :
    usdkrwRun req =
      (UsdkrwResp.failure "All sources failed"
        [mkTry "yahoo" req.yahoo, mkTry "dunamu" req.dunamu,
          mkTry "host" req.host, mkTry "erapi" req.erapi],
        ["yahoo", "dunamu", "host", "erapi"]) ∧
    (usdkrwRun req).1.statusCode = 502 := by
  have hy := yahooAccept_eq_false h1
  have hd := dunamuAccept_eq_false h2
  have hh := hostAccept_eq_false h3
  have he := erapiAccept_eq_false h4
  simp [usdkrwRun, hy, hd, hh, he, UsdkrwResp.statusCode]

/-- Witness for C4 at a concrete request where the four sources fail in
four different ways. -/
theorem usdkrw_all_fail_aggregate_witness :
    usdkrwRun usdkrwReqAllFail =
      (UsdkrwResp.failure "All sources failed"
        [{ source := "yahoo", status := 0, ok := false, error := some "AbortError" },
          { source := "dunamu", status := 404, ok := false, error := none },
          { source := "host", status := 200, ok := true, error := none },
          { source := "erapi", status := 200, ok := true, error := none }],
        ["yahoo", "dunamu", "host", "erapi"]) ∧
    (usdkrwRun usdkrwReqAllFail).1.statusCode = 502 := by
  have h := usdkrw_all_fail_aggregate usdkrwReqAllFail
    (Or.inl (by decide)) (Or.inl (by decide))
    (Or.inr (Or.inl (by decide)))
    (Or.inr (Or.inr ⟨0, by decide, le_refl 0⟩))
  simpa [usdkrwReqAllFail, mkTry] using h

/-! ### Sorting lemmas -/

/-- Inserting into the descending sort is a permutation of consing. -/
theorem insertDescBy_perm {α : Type} (key : α → ℚ) (e : α) (l : List α) :
    List.Perm (insertDescBy key e l) (e :: l) := by
  induction l with
  | nil => exact List.Perm.refl _
  | cons x xs ih =>
    simp only [insertDescBy]
    by_cases h : key e < key x
    · rw [if_pos h]
      exact (ih.cons x).trans (List.Perm.swap e x xs)
    · rw [if_neg h]

/-- The descending sort permutes its input. -/
theorem sortDescBy_perm {α : Type} (key : α → ℚ) (l : List α) :
    List.Perm (sortDescBy key l) l := by
  induction l with
  | nil => exact List.Perm.refl _
  | cons x xs ih => exact (insertDescBy_perm key x _).trans (ih.cons x)

/-- Membership in an insertion. -/
theorem mem_insertDescBy {α : Type} (key : α → ℚ) (e a : α) (l : List α) :
    a ∈ insertDescBy key e l ↔ a = e ∨ a ∈ l := by
  have h := (insertDescBy_perm key e l).mem_iff (a := a)
  simpa using h

/-- Membership in the sorted list. -/
theorem mem_sortDescBy {α : Type} (key : α → ℚ) (a : α) (l : List α) :
    a ∈ sortDescBy key l ↔ a ∈ l := (sortDescBy_perm key l).mem_iff

/-- Inserting preserves descending pairwise order. -/
theorem pairwise_insertDescBy {α : Type} (key : α → ℚ) (e : α) {l : List α}
    (h : List.Pairwise (fun a b => key b ≤ key a) l) :
    List.Pairwise (fun a b => key b ≤ key a) (insertDescBy key e l) := by
  induction l with
  | nil => simp [insertDescBy]
  | cons x xs ih =>
    rcases List.pairwise_cons.1 h with ⟨hx, hxs⟩
    simp only [insertDescBy]
    by_cases hc : key e < key x
    · rw [if_pos hc]
      refine List.pairwise_cons.2 ⟨?_, ih hxs⟩
      intro y hy
      rcases (mem_insertDescBy key e y xs).1 hy with rfl | hy
      · exact le_of_lt hc
      · exact hx y hy
    · rw [if_neg hc]
      refine List.pairwise_cons.2 ⟨?_, h⟩
      intro y hy
      rcases List.mem_cons.1 hy with rfl | hy
      · exact not_lt.1 hc
      · exact le_trans (hx y hy) (not_lt.1 hc)

/-- The descending sort is pairwise descending. -/
theorem pairwise_sortDescBy {α : Type} (key : α → ℚ) (l : List α) :
    List.Pairwise (fun a b => key b ≤ key a) (sortDescBy key l) := by
  induction l with
  | nil => simp [sortDescBy]
  | cons x xs ih => exact pairwise_insertDescBy key x ih

/-- A pairwise descending list passes the adjacent-order check. -/
theorem isDescChainBy_of_pairwise {α : Type} (key : α → ℚ) :
    ∀ {l : List α}, List.Pairwise (fun a b => key b ≤ key a) l →
      isDescChainBy key l = true := by
  intro l
  induction l with
  | nil => intro _; rfl
  | cons a t ih =>
    intro h
    rcases List.pairwise_cons.1 h with ⟨ha, ht⟩
    cases t with
    | nil => rfl
    | cons b t2 =>
      have hab : key b ≤ key a := ha b (by simp)
      simp [isDescChainBy, hab, ih ht]

/-- The sort preserves length. -/
theorem length_sortDescBy {α : Type} (key : α → ℚ) (l : List α) :
    (sortDescBy key l).length = l.length := (sortDescBy_perm key l).length_eq

/-- The sort preserves the sum of any projection. -/
theorem sum_map_sortDescBy {α : Type} (key : α → ℚ) (f : α → ℚ) (l : List α) :
    ((sortDescBy key l).map f).sum = (l.map f).sum :=
  ((sortDescBy_perm key l).map f).sum_eq

/-! ### Rounding lemmas -/

/-- The rational floor is at most its argument. -/
theorem ratFloor_le (y : ℚ) : (Rat.floor y : ℚ) ≤ y := Int.floor_le y

/-- The argument is below floor plus one. -/
theorem lt_ratFloor_add_one (y : ℚ) : y < Rat.floor y + 1 := Int.lt_floor_add_one y

/-- An integer below the argument is at most the floor. -/
theorem ratLeFloor {z : ℤ} {y : ℚ} (h : (z : ℚ) ≤ y) : z ≤ Rat.floor y := Int.le_floor.2 h

/-- The half-cent upper rounding bound. -/
theorem toFix2_le (x : ℚ) : toFix2 x ≤ x + 1 / 200 := by
  have h := ratFloor_le (x * 10 ^ 2 + 1 / 2)
  unfold toFix2 toFixN
  rw [div_le_iff₀ (by norm_num : (0 : ℚ) < 10 ^ 2)]
  nlinarith

/-- The half-cent lower rounding bound. -/
theorem le_toFix2 (x : ℚ) : x - 1 / 200 ≤ toFix2 x := by
  have h := lt_ratFloor_add_one (x * 10 ^ 2 + 1 / 2)
  unfold toFix2 toFixN
  rw [le_div_iff₀ (by norm_num : (0 : ℚ) < 10 ^ 2)]
  nlinarith

/-- Rounding preserves the MIN_USD lower bound. -/
theorem toFix2_ge_min {x : ℚ} (h : MIN_USD ≤ x) : MIN_USD ≤ toFix2 x := by
  unfold MIN_USD at h ⊢
  have h2 : ((10000 : ℤ) : ℚ) ≤ x * 10 ^ 2 + 1 / 2 := by push_cast; nlinarith
  have h3 : (10000 : ℤ) ≤ Rat.floor (x * 10 ^ 2 + 1 / 2) := ratLeFloor h2
  unfold toFix2 toFixN
  rw [le_div_iff₀ (by norm_num : (0 : ℚ) < 10 ^ 2)]
  have h4 : ((10000 : ℤ) : ℚ) ≤ (Rat.floor (x * 10 ^ 2 + 1 / 2) : ℚ) := by exact_mod_cast h3
  nlinarith

/-- Rounding preserves the MIN_USD upper bound on the negative side. -/
theorem toFix2_le_neg_min {x : ℚ} (h : x ≤ -MIN_USD) : toFix2 x ≤ -MIN_USD := by
  unfold MIN_USD at h ⊢
  have h2 : x * 10 ^ 2 + 1 / 2 ≤ ((-10000 : ℤ) : ℚ) + 1 / 2 := by push_cast; nlinarith
  have h3 : Rat.floor (x * 10 ^ 2 + 1 / 2) ≤ -10000 := by
    by_contra hcon
    push_neg at hcon
    have h4 : ((-10000 : ℤ) : ℚ) + 1 ≤ (Rat.floor (x * 10 ^ 2 + 1 / 2) : ℚ) := by
      exact_mod_cast hcon
    have h5 := ratFloor_le (x * 10 ^ 2 + 1 / 2)
    nlinarith
  unfold toFix2 toFixN
  rw [div_le_iff₀ (by norm_num : (0 : ℚ) < 10 ^ 2)]
  have h6 : (Rat.floor (x * 10 ^ 2 + 1 / 2) : ℚ) ≤ ((-10000 : ℤ) : ℚ) := by exact_mod_cast h3
  nlinarith

/-- Rounding preserves the absolute MIN_USD bound. -/
theorem abs_toFix2_ge {x : ℚ} (h : MIN_USD ≤ |x|) : MIN_USD ≤ |toFix2 x| := by
  rcases le_abs.1 h with hx | hx
  · exact le_trans (toFix2_ge_min hx) (le_abs_self _)
  · have : x ≤ -MIN_USD := by linarith
    have h2 := toFix2_le_neg_min this
    calc MIN_USD ≤ -toFix2 x := by linarith
    _ ≤ |toFix2 x| := neg_le_abs _

/-- Rounding a strictly positive value is nonnegative, and a value of at
least MIN_USD stays strictly positive. -/
theorem toFix2_pos_of_min {x : ℚ} (h : MIN_USD ≤ x) : 0 < toFix2 x :=
  lt_of_lt_of_le (by norm_num [MIN_USD]) (toFix2_ge_min h)

/-! ### Sum bounds for the capped top lists -/

/-- Dropping elements with nonnegative values cannot increase a sum. -/
theorem sum_take_le_sum {l : List ℚ} (n : Nat) (h : ∀ x ∈ l, 0 ≤ x) :
    (l.take n).sum ≤ l.sum := by
  have hsplit := List.sum_take_add_sum_drop l n
  have hd : 0 ≤ (l.drop n).sum :=
    List.sum_nonneg (fun x hx => h x (List.drop_subset n l hx))
  linarith

/-- Core bound for the capped top lists: if the displayed entry values sum
to at most the exact total plus one half-cent rounding per entry, and each
entry is worth at least MIN_USD, then the 25 largest entries sum to at
most the total plus 13/100. -/
theorem sum_take25_le {α : Type} (key : α → ℚ) (l : List α) (total : ℚ)
    (hsum : (l.map key).sum ≤ total + l.length * (1 / 200))
    (hlb : ∀ e ∈ l, MIN_USD ≤ key e) :
    (((sortDescBy key l).take 25).map key).sum ≤ total + 13 / 100 := by
  set sl := sortDescBy key l with hsl
  have hlen : sl.length = l.length := length_sortDescBy key l
  have hsum2 : (sl.map key).sum = (l.map key).sum := sum_map_sortDescBy key key l
  by_cases hle : l.length ≤ 25
  · have htake : sl.take 25 = sl := List.take_of_length_le (by omega)
    rw [htake, hsum2]
    have hcast : (l.length : ℚ) ≤ 25 := by exact_mod_cast hle
    nlinarith
  · push_neg at hle
    have hsplit := List.sum_take_add_sum_drop (sl.map key) 25
    rw [← List.map_take, ← List.map_drop] at hsplit
    have hdlen : (sl.drop 25).length = l.length - 25 := by
      rw [List.length_drop, hlen]
    have hdrop_lb : ((sl.drop 25).length : ℚ) * MIN_USD ≤ ((sl.drop 25).map key).sum := by
      have hmem : ∀ x ∈ (sl.drop 25).map key, MIN_USD ≤ x := by
        intro x hx
        rcases List.mem_map.1 hx with ⟨e, he, rfl⟩
        exact hlb e ((mem_sortDescBy key e l).1 (List.drop_subset 25 sl he))
      have := List.card_nsmul_le_sum ((sl.drop 25).map key) MIN_USD hmem
      rw [nsmul_eq_mul] at this
      simpa using this
    have hcast : ((sl.drop 25).length : ℚ) = (l.length : ℚ) - 25 := by
      rw [hdlen]
      have : (25 : ℕ) ≤ l.length := by omega
      push_cast [Nat.cast_sub this]
      ring
    have hn : (26 : ℚ) ≤ (l.length : ℚ) := by exact_mod_cast hle
    have hmin : MIN_USD = (100 : ℚ) := rfl
    rw [hsum2] at hsplit
    rw [hcast, hmin] at hdrop_lb
    nlinarith

/-- Variant of the top-list bound for signed entries: when nothing is
truncated the displayed sum is within the per-entry rounding of the
total. -/
theorem sum_take25_le_of_short {α : Type} (key : α → ℚ) (l : List α) (total : ℚ)
    (hsum : (l.map key).sum ≤ total + l.length * (1 / 200))
    (hle : l.length ≤ 25) :
    (((sortDescBy key l).take 25).map key).sum ≤ total + 13 / 100 := by
  have hlen : (sortDescBy key l).length = l.length := length_sortDescBy key l
  have htake : (sortDescBy key l).take 25 = sortDescBy key l :=
    List.take_of_length_le (by omega)
  rw [htake, sum_map_sortDescBy key key l]
  have hcast : (l.length : ℚ) ≤ 25 := by exact_mod_cast hle
  nlinarith

/-! ### Fold invariants of the futures aggregations -/

/-- Invariant of the binance futures fold: every accumulated entry is
worth at least MIN_USD, and the displayed entry values sum to the exact
running total up to one half-cent rounding per entry. -/
def FutInv (acc : ℚ × List FutTop) : Prop :=
  (∀ e ∈ acc.2, MIN_USD ≤ e.usd) ∧
  (acc.2.map (fun e => e.usd)).sum ≤ acc.1 + acc.2.length * (1 / 200)

/-- One step of the binance futures loop preserves the invariant. -/
theorem futStep_preserves {acc : ℚ × List FutTop} (h : FutInv acc) (pos : BinancePos) :
    FutInv (futStep acc pos) := by
  rcases h with ⟨hmem, hsum⟩
  simp only [futStep]
  by_cases h1 : toNum pos.positionAmt = 0
  · rw [if_pos h1]; exact ⟨hmem, hsum⟩
  rw [if_neg h1]
  by_cases h2 : strEndsWith pos.symbol "USDT" = false
  · rw [if_pos h2]; exact ⟨hmem, hsum⟩
  rw [if_neg h2]
  by_cases h3 : EXCLUDED.contains (baseAssetFromSymbol pos.symbol) = true
  · rw [if_pos h3]; exact ⟨hmem, hsum⟩
  rw [if_neg h3]
  set X := |if toNum pos.notional = 0 then toNum pos.positionAmt * toNum pos.markPrice
    else toNum pos.notional| with hX
  by_cases h4 : X = 0
  · rw [if_pos h4]; exact ⟨hmem, hsum⟩
  rw [if_neg h4]
  by_cases h5 : MIN_USD ≤ X
  · rw [if_pos h5]
    constructor
    · intro e he
      rcases List.mem_append.1 he with he | he
      · exact hmem e he
      · rcases List.mem_singleton.1 he with rfl
        exact toFix2_ge_min h5
    · have hb := toFix2_le X
      simp only [List.map_append, List.sum_append, List.length_append, List.map_cons,
        List.map_nil, List.sum_cons, List.sum_nil, List.length_cons, List.length_nil]
      push_cast
      nlinarith
  · rw [if_neg h5]; exact ⟨hmem, hsum⟩

/-- The binance futures fold satisfies the invariant from any invariant
start, in particular from the empty accumulator. -/
theorem futFold_inv (ps : List BinancePos) : FutInv (ps.foldl futStep (0, [])) := by
  have main : ∀ acc, FutInv acc → FutInv (ps.foldl futStep acc) := by
    induction ps with
    | nil => intro acc h; exact h
    | cons p ps ih => intro acc h; exact ih _ (futStep_preserves h p)
  exact main (0, []) ⟨by simp, by simp⟩

/-- Invariant of the Bybit position fold: every accumulated top entry has
absolute value at least MIN_USD, and the displayed entry values sum to the
exact running alt total up to one half-cent rounding per entry. -/
def BybitInv (acc : BybitAcc) : Prop :=
  (∀ e ∈ acc.top, MIN_USD ≤ |e.usd|) ∧
  (acc.top.map (fun e => e.usd)).sum ≤ acc.altUSD + acc.top.length * (1 / 200)

/-- One step of the Bybit position loop preserves the invariant. -/
theorem bybitStep_preserves {acc : BybitAcc} (h : BybitInv acc) (p : BybitPos) :
    BybitInv (bybitStep acc p) := by
  rcases h with ⟨hmem, hsum⟩
  simp only [bybitStep]
  by_cases h1 : p.symbol = "" ∨ toNum p.size = 0
  · rw [if_pos h1]; exact ⟨hmem, hsum⟩
  rw [if_neg h1]
  set side := jsToUpper (jsOr p.side "") with hside
  set signedQty := if side = "BUY" then toNum p.size
    else if side = "SELL" then -toNum p.size else 0 with hsq
  set X := if toNum p.positionValue = 0 then
      (if toNum p.markPrice = 0 then 0 else signedQty * toNum p.markPrice)
    else if side = "BUY" then toNum p.positionValue else -toNum p.positionValue with hXdef
  by_cases h2 : strStartsWith p.symbol "BTC" = true
  · rw [if_pos h2]; exact ⟨hmem, hsum⟩
  rw [if_neg h2]
  by_cases h3 : strStartsWith p.symbol "ETH" = true
  · rw [if_pos h3]; exact ⟨hmem, hsum⟩
  rw [if_neg h3]
  by_cases h4 : (100 : ℚ) ≤ |X|
  · rw [if_pos h4]
    constructor
    · intro e he
      rcases List.mem_append.1 he with he | he
      · exact hmem e he
      · rcases List.mem_singleton.1 he with rfl
        exact abs_toFix2_ge h4
    · have hb := toFix2_le X
      simp only [List.map_append, List.sum_append, List.length_append, List.map_cons,
        List.map_nil, List.sum_cons, List.sum_nil, List.length_cons, List.length_nil]
      push_cast
      nlinarith
  · rw [if_neg h4]; exact ⟨hmem, hsum⟩

/-- The Bybit fold satisfies the invariant. -/
theorem bybitFold_inv (bs : List BybitPos) : BybitInv (bybitAgg bs) := by
  have main : ∀ acc, BybitInv acc → BybitInv (bs.foldl bybitStep acc) := by
    induction bs with
    | nil => intro acc h; exact h
    | cons p bs ih => intro acc h; exact ih _ (bybitStep_preserves h p)
  exact main _ ⟨by simp, by simp⟩

/-! ### Claims C1 and C5 -/

/-- C1 counterexample: in binance-alt-summary.js a futures position
contributes its absolute notional, so the list with one long alt position
of +300 USD and one short alt position of -200 USD aggregates to 500
(gross), not to the claimed net 100; the rounded response figure is 500 as
well. -/
theorem futures_sign_cex :
    (binanceAltFutures binanceNetScenario).1 = 500 ∧
    toFix2 (binanceAltFutures binanceNetScenario).1 = 500 ∧
    ¬ (binanceAltFutures binanceNetScenario).1 = 100 := by decide

/-- Rounding a value at or below the negated threshold is negative. -/
theorem toFix2_neg_lt_zero {x : ℚ} (h : MIN_USD ≤ x) : toFix2 (-x) < 0 := by
  have hneg : -x ≤ -MIN_USD := neg_le_neg h
  have := toFix2_le_neg_min hneg
  have hm : (0 : ℚ) < MIN_USD := by norm_num [MIN_USD]
  linarith

/-- C1 amended: in every aggregator of position-summary.js a position's
contribution preserves sign.  For each of the bybit, bitget and okx loops,
for every accumulator state and every qualifying alt position with a
reported value v at or above the threshold: a long position (side BUY or
LONG) adds exactly +v to the alt total and appends a top entry with
strictly positive usd, and a short position (side SELL or SHORT) adds
exactly -v and appends a strictly negative entry; consequently the long
+300 / short -200 scenario nets to altFuturesUSD = 100 on each of the
three exchanges.  The futures loop of binance-alt-summary.js instead sums
absolute notionals and yields 500 on the same scenario. -/
theorem futures_sign_amended :
    (∀ (acc : BybitAcc) (p : BybitPos),
      p.symbol ≠ "" → toNum p.size ≠ 0 →
      strStartsWith p.symbol "BTC" = false → strStartsWith p.symbol "ETH" = false →
      MIN_USD ≤ toNum p.positionValue →
      (jsToUpper (jsOr p.side "") = "BUY" →
        (bybitStep acc p).altUSD = acc.altUSD + toNum p.positionValue ∧
        (bybitStep acc p).top.map (fun e => e.usd)
          = acc.top.map (fun e => e.usd) ++ [toFix2 (toNum p.positionValue)] ∧
        0 < toFix2 (toNum p.positionValue)) ∧
      (jsToUpper (jsOr p.side "") = "SELL" →
        (bybitStep acc p).altUSD = acc.altUSD - toNum p.positionValue ∧
        (bybitStep acc p).top.map (fun e => e.usd)
          = acc.top.map (fun e => e.usd) ++ [toFix2 (-toNum p.positionValue)] ∧
        toFix2 (-toNum p.positionValue) < 0))
    ∧ (∀ (acc : BybitAcc) (p : BitgetPos),
      jsOr p.symbol (jsOr p.instId "") ≠ "" →
      toNum (jsOrNum p.total (jsOrNum p.totalPos (jsOrNum p.totalSize p.size))) ≠ 0 →
      strStartsWith (jsOr p.symbol (jsOr p.instId "")) "BTC" = false →
      strIncludes (jsOr p.symbol (jsOr p.instId "")) "BTCUSDT" = false →
      strStartsWith (jsOr p.symbol (jsOr p.instId "")) "ETH" = false →
      strIncludes (jsOr p.symbol (jsOr p.instId "")) "ETHUSDT" = false →
      jsTruthyNum p.usdt = true →
      MIN_USD ≤ toNum p.usdt →
      (jsToUpper (jsOr p.holdSide (jsOr p.posSide "")) = "LONG" →
        (bitgetStep acc p).altUSD = acc.altUSD + toNum p.usdt ∧
        (bitgetStep acc p).top.map (fun e => e.usd)
          = acc.top.map (fun e => e.usd) ++ [toFix2 (toNum p.usdt)] ∧
        0 < toFix2 (toNum p.usdt)) ∧
      (jsToUpper (jsOr p.holdSide (jsOr p.posSide "")) = "SHORT" →
        (bitgetStep acc p).altUSD = acc.altUSD - toNum p.usdt ∧
        (bitgetStep acc p).top.map (fun e => e.usd)
          = acc.top.map (fun e => e.usd) ++ [toFix2 (-toNum p.usdt)] ∧
        toFix2 (-toNum p.usdt) < 0))
    ∧ (∀ (instMap : List (String × ℚ)) (acc : OkxAcc) (p : OkxPos) (nu : ℚ),
      strEndsWith p.instId "-SWAP" = true →
      p.instId ≠ "" →
      toNum (jsOrNum p.pos p.sz) ≠ 0 →
      strStartsWith p.instId "BTC-" = false → strStartsWith p.instId "ETH-" = false →
      p.notionalUsd = some nu →
      MIN_USD ≤ nu →
      (jsToUpper (jsOr p.posSide "") = "LONG" →
        (okxStep instMap acc p).altUSD = acc.altUSD + nu ∧
        (okxStep instMap acc p).top.map (fun e => e.usd)
          = acc.top.map (fun e => e.usd) ++ [toFix2 nu] ∧
        0 < toFix2 nu) ∧
      (jsToUpper (jsOr p.posSide "") = "SHORT" →
        (okxStep instMap acc p).altUSD = acc.altUSD - nu ∧
        (okxStep instMap acc p).top.map (fun e => e.usd)
          = acc.top.map (fun e => e.usd) ++ [toFix2 (-nu)] ∧
        toFix2 (-nu) < 0))
    ∧ (getBybitSummary bybitNetScenario).altFuturesUSD = 100
    ∧ (getBitgetSummary bitgetNetScenario).altFuturesUSD = 100
    ∧ (getOkxSummary okxInstMapW okxNetScenario).altFuturesUSD = 100
    ∧ (binanceAltFutures binanceNetScenario).1 = 500 := by
  have hm : (0 : ℚ) < MIN_USD := by norm_num [MIN_USD]
  refine ⟨?_, ?_, ?_, by decide, by decide, by decide, by decide⟩
  · intro acc p hsym hsz hbtc heth hmin
    have hpv : (0 : ℚ) < toNum p.positionValue := lt_of_lt_of_le hm hmin
    have habs : (100 : ℚ) ≤ |toNum p.positionValue| := by
      rw [abs_of_pos hpv]
      simpa [MIN_USD] using hmin
    constructor
    · intro hside
      refine ⟨?_, ?_, toFix2_pos_of_min hmin⟩ <;>
        simp [bybitStep, hsym, hsz, hside, ne_of_gt hpv, hbtc, heth, habs]
    · intro hside
      refine ⟨?_, ?_, toFix2_neg_lt_zero hmin⟩ <;>
        simp [bybitStep, hsym, hsz, hside, ne_of_gt hpv, hbtc, heth, habs, sub_eq_add_neg]
  · intro acc p hsym hsz hbtc1 hbtc2 heth1 heth2 husdt hmin
    have hpv : (0 : ℚ) < toNum p.usdt := lt_of_lt_of_le hm hmin
    have habs : (100 : ℚ) ≤ |toNum p.usdt| := by
      rw [abs_of_pos hpv]
      simpa [MIN_USD] using hmin
    constructor
    · intro hside
      refine ⟨?_, ?_, toFix2_pos_of_min hmin⟩ <;>
        simp [bitgetStep, hsym, hsz, hside, husdt, hbtc1, hbtc2, heth1, heth2, habs]
    · intro hside
      refine ⟨?_, ?_, toFix2_neg_lt_zero hmin⟩ <;>
        simp [bitgetStep, hsym, hsz, hside, husdt, hbtc1, hbtc2, heth1, heth2, habs,
          sub_eq_add_neg]
  · intro instMap acc p nu hswap hid hsz hbtc heth hnu hmin
    have hpv : (0 : ℚ) < nu := lt_of_lt_of_le hm hmin
    have habs : (100 : ℚ) ≤ |nu| := by
      rw [abs_of_pos hpv]
      simpa [MIN_USD] using hmin
    constructor
    · intro hside
      refine ⟨?_, ?_, toFix2_pos_of_min hmin⟩ <;>
        simp [okxStep, hswap, hid, hsz, hside, hnu, hbtc, heth, habs]
    · intro hside
      refine ⟨?_, ?_, toFix2_neg_lt_zero hmin⟩ <;>
        simp [okxStep, hswap, hid, hsz, hside, hnu, hbtc, heth, habs, sub_eq_add_neg]

/-- Witness for the amended C1: the sign-preservation cases applied to
concrete long and short positions from the scenarios, on the empty
accumulator. -/
theorem futures_sign_amended_witness :
    ((bybitStep { btcNet := 0, ethNet := 0, altUSD := 0, top := [] }
        { symbol := "AAAUSDT", size := some 10, side := some "Buy",
          positionValue := some 300, markPrice := none }).altUSD = 0 + 300) ∧
    ((bybitStep { btcNet := 0, ethNet := 0, altUSD := 0, top := [] }
        { symbol := "AAAUSDT", size := some 20, side := some "Sell",
          positionValue := some 200, markPrice := none }).altUSD = 0 - 200) ∧
    ((okxStep okxInstMapW { btcNet := 0, ethNet := 0, altUSD := 0, top := [] }
        { instId := "AAA-USDT-SWAP", posSide := some "short", pos := some 200,
          sz := none, notionalUsd := some 200, markPx := some 1 }).altUSD = 0 - 200) :=
  ⟨((futures_sign_amended.1 { btcNet := 0, ethNet := 0, altUSD := 0, top := [] }
      { symbol := "AAAUSDT", size := some 10, side := some "Buy",
        positionValue := some 300, markPrice := none }
      (by decide) (by decide) (by decide) (by decide) (by decide)).1 (by decide)).1,
    ((futures_sign_amended.1 { btcNet := 0, ethNet := 0, altUSD := 0, top := [] }
      { symbol := "AAAUSDT", size := some 20, side := some "Sell",
        positionValue := some 200, markPrice := none }
      (by decide) (by decide) (by decide) (by decide) (by decide)).2 (by decide)).1,
    ((futures_sign_amended.2.2.1 okxInstMapW { btcNet := 0, ethNet := 0, altUSD := 0, top := [] }
      { instId := "AAA-USDT-SWAP", posSide := some "short", pos := some 200,
        sz := none, notionalUsd := some 200, markPx := some 1 } 200
      (by decide) (by decide) (by decide) (by decide) (by decide) (by decide)
      (by decide)).2 (by decide)).1⟩

/-- C5 counterexample: with 25 long positions of +200 USD and one short of
-200 USD, the Bybit top list drops the short entry at the 25-entry cap, so
the displayed entries sum to 5000 while altFuturesUSD is 4800: the sum of
the top entries exceeds the returned total. -/
theorem sum_top_le_total_cex :
    ((getBybitSummary bybitCapList).altFuturesTop.map (fun e => e.usd)).sum = 5000 ∧
    (getBybitSummary bybitCapList).altFuturesUSD = 4800 ∧
    ¬ ((getBybitSummary bybitCapList).altFuturesTop.map (fun e => e.usd)).sum
        ≤ (getBybitSummary bybitCapList).altFuturesUSD := by decide

/-- The displayed wallet entries overshoot the exact values by at most one
half-cent each. -/
theorem sum_map_walletEntryOf_le (m : KVMap) :
    ((m.map walletEntryOf).map (fun e => e.usd)).sum
      ≤ (m.map (fun p => p.2)).sum + (m.map walletEntryOf).length * (1 / 200) := by
  induction m with
  | nil => simp
  | cons p m ih =>
    simp only [List.map_cons, List.sum_cons, List.length_cons]
    have hb := toFix2_le p.2
    have hw : (walletEntryOf p).usd = toFix2 p.2 := rfl
    push_cast
    rw [hw]
    nlinarith [ih]

/-- Unfolded description of walletInvMin. -/
theorem walletInvMin_spec {m : KVMap} (h : walletInvMin m = true) :
    ∀ p ∈ m, p.1 ≠ "" ∧ EXCLUDED.contains p.1 = false ∧ MIN_USD ≤ p.2 := by
  rw [walletInvMin, List.all_eq_true] at h
  intro p hp
  have hph := h p hp
  simp only [Bool.and_eq_true, Bool.not_eq_true', beq_eq_false_iff_ne, ne_eq,
    decide_eq_true_eq] at hph
  tauto

/-- The wallet fold is a running sum paired with the mapped display
entries. -/
theorem wallet_fold_spec (m : KVMap) (s : ℚ) (l : List WalletEntry) :
    m.foldl (fun acc p => (acc.1 + p.2, acc.2 ++ [walletEntryOf p])) (s, l)
      = (s + (m.map (fun p => p.2)).sum, l ++ m.map walletEntryOf) := by
  induction m generalizing s l with
  | nil => simp
  | cons p m ih =>
    simp only [List.foldl_cons, List.map_cons, List.sum_cons]
    rw [ih]
    simp [add_assoc, List.append_assoc]

/-- Closed form of buildWalletTop. -/
theorem buildWalletTop_eq (m : KVMap) :
    buildWalletTop m
      = ((m.map (fun p => p.2)).sum,
        (sortDescBy (fun e => e.usd) (m.map walletEntryOf)).take 25) := by
  unfold buildWalletTop
  rw [wallet_fold_spec]
  simp

set_option maxHeartbeats 1000000 in
/-- C5 amended: over exact arithmetic the sum of the displayed top entries
can exceed the returned total only by the display rounding tolerance
(27/200, that is one half-cent per displayed entry plus the rounding of
the total): this holds for the wallet aggregation under the guarded-call
invariant, unconditionally for the gross binance futures aggregation, and
for the signed Bybit aggregation whenever no negative entry is truncated
(in particular when at most 25 entries qualify); the counterexample shows
it fails for signed entries under truncation. -/
theorem sum_top_le_total_amended :
    (∀ m : KVMap, walletInvMin m = true →
      ((buildWalletTop m).2.map (fun e => e.usd)).sum
        ≤ toFix2 (buildWalletTop m).1 + 27 / 200)
    ∧ (∀ ps : List BinancePos,
      ((binanceAltFutures ps).2.map (fun e => e.usd)).sum
        ≤ toFix2 (binanceAltFutures ps).1 + 27 / 200)
    ∧ (∀ bs : List BybitPos,
      ((∀ e ∈ (bybitAgg bs).top, 0 ≤ e.usd) ∨ (bybitAgg bs).top.length ≤ 25) →
      ((getBybitSummary bs).altFuturesTop.map (fun e => e.usd)).sum
        ≤ (getBybitSummary bs).altFuturesUSD + 27 / 200) := by
  refine ⟨?_, ?_, ?_⟩
  · intro m hm
    have hspec := walletInvMin_spec hm
    have hsum := sum_map_walletEntryOf_le m
    have hlb : ∀ e ∈ m.map walletEntryOf, MIN_USD ≤ e.usd := by
      intro e he
      rcases List.mem_map.1 he with ⟨p, hp, rfl⟩
      exact toFix2_ge_min (hspec p hp).2.2
    have hmain := sum_take25_le (fun e => e.usd) (m.map walletEntryOf)
      ((m.map (fun p => p.2)).sum) hsum hlb
    have hlo := le_toFix2 ((m.map (fun p => p.2)).sum)
    rw [buildWalletTop_eq]
    dsimp only
    linarith
  · intro ps
    have hinv := futFold_inv ps
    have hmain := sum_take25_le (fun e => e.usd) ((ps.foldl futStep (0, [])).2)
      ((ps.foldl futStep (0, [])).1) hinv.2 hinv.1
    have hlo := le_toFix2 ((ps.foldl futStep (0, [])).1)
    show ((((sortDescBy (fun e => e.usd) ((ps.foldl futStep (0, [])).2)).take 25).map
        (fun e => e.usd)).sum) ≤ toFix2 ((ps.foldl futStep (0, [])).1) + 27 / 200
    linarith
  · intro bs hcase
    have hinv := bybitFold_inv bs
    have hfin : (((sortDescBy (fun e => e.usd) (bybitAgg bs).top).take 25).map
        (fun e => e.usd)).sum ≤ (bybitAgg bs).altUSD + 13 / 100 := by
      rcases hcase with hnn | hlen
      · refine sum_take25_le (fun e => e.usd) ((bybitAgg bs).top) ((bybitAgg bs).altUSD)
          hinv.2 ?_
        intro e he
        have habs := hinv.1 e he
        have hnne := hnn e he
        rwa [abs_of_nonneg hnne] at habs
      · exact sum_take25_le_of_short (fun e => e.usd) ((bybitAgg bs).top)
          ((bybitAgg bs).altUSD) hinv.2 hlen
    have hlo := le_toFix2 ((bybitAgg bs).altUSD)
    show (((sortDescBy (fun e => e.usd) (bybitAgg bs).top).take 25).map
        (fun e => e.usd)).sum ≤ toFix2 ((bybitAgg bs).altUSD) + 27 / 200
    linarith

/-- Witness for the amended C5 bound at concrete inputs. -/
theorem sum_top_le_total_amended_witness :
    ((buildWalletTop walletMapW).2.map (fun e => e.usd)).sum
      ≤ toFix2 (buildWalletTop walletMapW).1 + 27 / 200 ∧
    ((getBybitSummary bybitNetScenario).altFuturesTop.map (fun e => e.usd)).sum
      ≤ (getBybitSummary bybitNetScenario).altFuturesUSD + 27 / 200 :=
  ⟨sum_top_le_total_amended.1 walletMapW (by decide),
    sum_top_le_total_amended.2.2 bybitNetScenario (Or.inr (by decide))⟩

/-! ### Claim C6 -/

/-- Properties of a sorted, capped top list: adjacent descending order,
length at most 25, and every element drawn from the input list. -/
theorem topList_props {α : Type} (key : α → ℚ) (l : List α) :
    isDescChainBy key ((sortDescBy key l).take 25) = true ∧
    ((sortDescBy key l).take 25).length ≤ 25 ∧
    ∀ e ∈ (sortDescBy key l).take 25, e ∈ l := by
  refine ⟨?_, ?_, ?_⟩
  · exact isDescChainBy_of_pairwise key
      (List.Pairwise.sublist (List.take_sublist 25 _) (pairwise_sortDescBy key l))
  · rw [List.length_take]
    exact min_le_left _ _
  · intro e he
    exact (mem_sortDescBy key e l).1 (List.take_subset 25 _ he)

/-- C6: in each aggregator, every top entry is worth at least the 100 USD
threshold (in absolute value for the signed Bybit exposure), the list is
sorted descending by usd, and it has at most 25 entries; the wallet part
holds under the invariant maintained by the guarded pushUSD call sites. -/
theorem top_lists_bounded :
    (∀ ps : List BinancePos,
      allMinUsdFut (binanceAltFutures ps).2 = true ∧
      isDescChainBy (fun e => e.usd) (binanceAltFutures ps).2 = true ∧
      (binanceAltFutures ps).2.length ≤ 25)
    ∧ (∀ bs : List BybitPos,
      allAbsMinUsdBybit (getBybitSummary bs).altFuturesTop = true ∧
      isDescChainBy (fun e => e.usd) (getBybitSummary bs).altFuturesTop = true ∧
      (getBybitSummary bs).altFuturesTop.length ≤ 25)
    ∧ (∀ m : KVMap, walletInvMin m = true →
      allMinUsdWallet (buildWalletTop m).2 = true ∧
      isDescChainBy (fun e => e.usd) (buildWalletTop m).2 = true ∧
      (buildWalletTop m).2.length ≤ 25) := by
  refine ⟨?_, ?_, ?_⟩
  · intro ps
    have hinv := futFold_inv ps
    have hprops := topList_props (fun e => e.usd) ((ps.foldl futStep (0, [])).2)
    refine ⟨?_, hprops.1, hprops.2.1⟩
    rw [allMinUsdFut, List.all_eq_true]
    intro e he
    rw [decide_eq_true_eq]
    exact hinv.1 e (hprops.2.2 e he)
  · intro bs
    have hinv := bybitFold_inv bs
    have hprops := topList_props (fun e => e.usd) ((bybitAgg bs).top)
    refine ⟨?_, hprops.1, hprops.2.1⟩
    rw [allAbsMinUsdBybit, List.all_eq_true]
    intro e he
    rw [decide_eq_true_eq]
    exact hinv.1 e (hprops.2.2 e he)
  · intro m hm
    have hspec := walletInvMin_spec hm
    have hprops := topList_props (fun e => e.usd) (m.map walletEntryOf)
    rw [buildWalletTop_eq]
    dsimp only
    refine ⟨?_, hprops.1, hprops.2.1⟩
    rw [allMinUsdWallet, List.all_eq_true]
    intro e he
    rw [decide_eq_true_eq]
    rcases List.mem_map.1 (hprops.2.2 e he) with ⟨p, hp, rfl⟩
    exact toFix2_ge_min (hspec p hp).2.2

/-- Witness for C6 at concrete inputs, the wallet part instantiated at a
map satisfying the guarded-call invariant. -/
theorem top_lists_bounded_witness :
    allMinUsdWallet (buildWalletTop walletMapW).2 = true ∧
    isDescChainBy (fun e => e.usd) (buildWalletTop walletMapW).2 = true ∧
    (buildWalletTop walletMapW).2.length ≤ 25 ∧
    allMinUsdFut (binanceAltFutures binanceNetScenario).2 = true ∧
    allAbsMinUsdBybit (getBybitSummary bybitNetScenario).altFuturesTop = true :=
  ⟨(top_lists_bounded.2.2 walletMapW (by decide)).1,
    (top_lists_bounded.2.2 walletMapW (by decide)).2.1,
    (top_lists_bounded.2.2 walletMapW (by decide)).2.2,
    (top_lists_bounded.1 binanceNetScenario).1,
    (top_lists_bounded.2.1 bybitNetScenario).1⟩

/-! ### Claim C7 -/

/-- C7 counterexample: the bithumb handler receives no debug flag (the
query parameter is absent) yet its success response carries the raw debug
diagnostics, because lines 56 and 63 attach debug unconditionally. -/
theorem debug_flag_cex :
    bithumbDebugShown (bithumbRespond none bithumbTryOk bithumbTryFail) = true ∧
    (bithumbRespond none bithumbTryOk bithumbTryFail).isSuccess = true := by
  constructor
  · rfl
  · rfl

/-- C7 amended: binance-alt-summary.js attaches the _debug field to the
success response exactly when the query flag is the string 1 or the string
true; the bithumb handler never reads the flag and attaches its debug
diagnostics to every success response regardless of the query. -/
theorem debug_flag_amended :
    (∀ (δ : Type) (debugQ : Option String) (wallet : ℚ × List WalletEntry)
      (fut : ℚ × List FutTop) (path : String) (dbg : δ),
      (binanceAssemble δ debugQ wallet fut path dbg).debugField.isSome
        = binanceDebugMode debugQ)
    ∧ (∀ debugQ : Option String,
      binanceDebugMode debugQ = true ↔ (debugQ = some "1" ∨ debugQ = some "true"))
    ∧ (∀ (debugQ : Option String) (r1 r2 : BithumbTry),
      (bithumbRespond debugQ r1 r2).isSuccess = true →
      bithumbDebugShown (bithumbRespond debugQ r1 r2) = true) := by
  refine ⟨?_, ?_, ?_⟩
  · intro δ debugQ wallet fut path dbg
    unfold binanceAssemble
    by_cases h : binanceDebugMode debugQ = true
    · rw [h]
      simp [h]
    · rw [Bool.not_eq_true] at h
      rw [h]
      simp [h]
  · intro debugQ
    unfold binanceDebugMode
    simp [Bool.or_eq_true, beq_iff_eq]
  · intro debugQ r1 r2
    unfold bithumbRespond
    by_cases h1 : r1.ok = true
    · rw [if_pos h1]
      intro _
      rfl
    · rw [if_neg h1]
      by_cases h2 : r2.ok = true
      · rw [if_pos h2]
        intro _
        rfl
      · rw [if_neg h2]
        intro hcon
        exact absurd hcon (by simp [BithumbResp.isSuccess])

/-- Witness for the amended C7 at concrete inputs: the binance flag on and
off, and a successful bithumb attempt. -/
theorem debug_flag_amended_witness :
    (binanceAssemble Unit (some "1") (0, []) (0, []) "getUserAsset" ()).debugField.isSome
      = binanceDebugMode (some "1") ∧
    (binanceAssemble Unit none (0, []) (0, []) "getUserAsset" ()).debugField.isSome
      = binanceDebugMode none ∧
    bithumbDebugShown (bithumbRespond (some "0") bithumbTryOk bithumbTryFail) = true :=
  ⟨debug_flag_amended.1 Unit (some "1") (0, []) (0, []) "getUserAsset" (),
    debug_flag_amended.1 Unit none (0, []) (0, []) "getUserAsset" (),
    debug_flag_amended.2.2 (some "0") bithumbTryOk bithumbTryFail (by decide)⟩

/-! ### Claim C8 -/

/-- C8: each signature builder is a deterministic pure function of the
(timestamp, key material, canonical-string inputs, secret) tuple: equal
inputs produce equal digests, for any fixed HMAC primitive. -/
theorem sign_builders_deterministic
    (hmacHex hmacB64 : String → String → String)
    (ts1 key1 rw1 qs1 sec1 ts2 key2 rw2 qs2 sec2 : String)
    (hbt : ts1 = ts2) (hbk : key1 = key2) (hbr : rw1 = rw2) (hbq : qs1 = qs2)
    (hbs : sec1 = sec2)
    (gts1 gm1 gp1 gq1 gb1 gsec1 gts2 gm2 gp2 gq2 gb2 gsec2 : String)
    (hgt : gts1 = gts2) (hgm : gm1 = gm2) (hgp : gp1 = gp2) (hgq : gq1 = gq2)
    (hgb : gb1 = gb2) (hgs : gsec1 = gsec2)
    (ots1 om1 op1 ob1 osec1 ots2 om2 op2 ob2 osec2 : String)
    (hot : ots1 = ots2) (hom : om1 = om2) (hop : op1 = op2) (hob : ob1 = ob2)
    (hos : osec1 = osec2) :
    bybitSign hmacHex ts1 key1 rw1 qs1 sec1 = bybitSign hmacHex ts2 key2 rw2 qs2 sec2 ∧
    bitgetSign hmacB64 gts1 gm1 gp1 gq1 gb1 gsec1
      = bitgetSign hmacB64 gts2 gm2 gp2 gq2 gb2 gsec2 ∧
    okxSign hmacB64 ots1 om1 op1 ob1 osec1 = okxSign hmacB64 ots2 om2 op2 ob2 osec2 := by
  subst hbt hbk hbr hbq hbs hgt hgm hgp hgq hgb hgs hot hom hop hob hos
  exact ⟨rfl, rfl, rfl⟩

/-- Witness for C8 at a concrete HMAC stand-in and concrete request
tuples. -/
theorem sign_builders_deterministic_witness :
    bybitSign (fun sec msg => sec ++ ":" ++ msg) "1700000000000" "key" "5000" "a=b" "sec"
      = bybitSign (fun sec msg => sec ++ ":" ++ msg) "1700000000000" "key" "5000" "a=b" "sec" ∧
    bitgetSign (fun sec msg => sec ++ ":" ++ msg) "1700" "get" "/api/v2" "q=1" "" "s2"
      = bitgetSign (fun sec msg => sec ++ ":" ++ msg) "1700" "get" "/api/v2" "q=1" "" "s2" ∧
    okxSign (fun sec msg => sec ++ ":" ++ msg) "2024-01-01T00:00:00Z" "GET" "/api/v5" "" "s3"
      = okxSign (fun sec msg => sec ++ ":" ++ msg) "2024-01-01T00:00:00Z" "GET" "/api/v5" "" "s3" :=
  sign_builders_deterministic (fun sec msg => sec ++ ":" ++ msg) (fun sec msg => sec ++ ":" ++ msg)
    "1700000000000" "key" "5000" "a=b" "sec" "1700000000000" "key" "5000" "a=b" "sec"
    rfl rfl rfl rfl rfl
    "1700" "get" "/api/v2" "q=1" "" "s2" "1700" "get" "/api/v2" "q=1" "" "s2"
    rfl rfl rfl rfl rfl rfl
    "2024-01-01T00:00:00Z" "GET" "/api/v5" "" "s3" "2024-01-01T00:00:00Z" "GET" "/api/v5" "" "s3"
    rfl rfl rfl rfl rfl

/-! ### Claim C9 -/

/-- C9: the unified exchange=all handler always answers HTTP 200, stores
each settled outcome as the summary or as an error-message entry, and sums
each aggregate figure over the three entries with a rejected exchange
contributing zero. -/
theorem position_summary_all_partial_failures (b g o : Settled) :
    (positionSummaryAll b g o).statusCode = 200 ∧
    (positionSummaryAll b g o).bybit = settleEntry b ∧
    (positionSummaryAll b g o).bitget = settleEntry g ∧
    (positionSummaryAll b g o).okx = settleEntry o ∧
    (∀ m : String, settleEntry (Settled.rejected m) = ExEntry.error m) ∧
    (∀ (f : ExFutures → ℚ) (m : String), entryContrib f (ExEntry.error m) = 0) ∧
    (positionSummaryAll b g o).aggregate.btcNetQty
      = toFix8 (entryContrib (fun f => f.btcNetQty) (settleEntry b)
        + entryContrib (fun f => f.btcNetQty) (settleEntry g)
        + entryContrib (fun f => f.btcNetQty) (settleEntry o)) ∧
    (positionSummaryAll b g o).aggregate.ethNetQty
      = toFix8 (entryContrib (fun f => f.ethNetQty) (settleEntry b)
        + entryContrib (fun f => f.ethNetQty) (settleEntry g)
        + entryContrib (fun f => f.ethNetQty) (settleEntry o)) ∧
    (positionSummaryAll b g o).aggregate.altFuturesUSD
      = toFix2 (entryContrib (fun f => f.altFuturesUSD) (settleEntry b)
        + entryContrib (fun f => f.altFuturesUSD) (settleEntry g)
        + entryContrib (fun f => f.altFuturesUSD) (settleEntry o)) := by
  refine ⟨rfl, rfl, rfl, rfl, fun m => rfl, fun f m => rfl, ?_, ?_, ?_⟩
  all_goals
    unfold positionSummaryAll
    dsimp only [List.foldl]
    congr 1
    ring

/-! ### Claim C10 -/

/-- A successful map lookup returns a value stored in the list. -/
theorem mapGet_some {m : KVMap} {k : String} {o : ℚ} (h : mapGet m k = some o) :
    ∃ p ∈ m, p.1 = k ∧ p.2 = o := by
  unfold mapGet at h
  cases hfind : m.find? (fun p => p.1 == k) with
  | none => rw [hfind] at h; simp at h
  | some p =>
    rw [hfind] at h
    simp only [Option.map_some'] at h
    have hmem := List.mem_of_find?_eq_some hfind
    have hkey := List.find?_some hfind
    simp only [beq_iff_eq] at hkey
    exact ⟨p, hmem, hkey, by simpa using h⟩

/-- Updating or appending a binding that satisfies a pointwise property
preserves it across the whole map. -/
theorem all_mapSet {P : String × ℚ → Bool} {m : KVMap} {k : String} {v : ℚ}
    (hm : m.all P = true) (hkv : P (k, v) = true) : (mapSet m k v).all P = true := by
  unfold mapSet
  split_ifs with h
  · rw [List.all_eq_true] at hm ⊢
    intro p hp
    rcases List.mem_map.1 hp with ⟨q, hq, rfl⟩
    by_cases hqk : (q.1 == k) = true
    · rw [if_pos hqk]
      exact hkv
    · rw [if_neg hqk]
      exact hm q hq
  · rw [List.all_eq_true] at hm ⊢
    intro p hp
    rcases List.mem_append.1 hp with hp | hp
    · exact hm p hp
    · rcases List.mem_singleton.1 hp with rfl
      exact hkv

/-- Unfolded description of walletInvPos. -/
theorem walletInvPos_spec {m : KVMap} (h : walletInvPos m = true) :
    ∀ p ∈ m, p.1 ≠ "" ∧ EXCLUDED.contains p.1 = false ∧ 0 < p.2 := by
  rw [walletInvPos, List.all_eq_true] at h
  intro p hp
  have hph := h p hp
  simp only [Bool.and_eq_true, Bool.not_eq_true', beq_eq_false_iff_ne, ne_eq,
    decide_eq_true_eq] at hph
  tauto

/-- C10: pushUSD keeps every assetUSD key a non-empty asset outside the
excluded set and every stored value strictly positive; the guarded call
sites additionally keep every value at or above MIN_USD; consequently
every altWalletTop entry has a strictly positive displayed value and an
asset outside the excluded set. -/
theorem pushUSD_invariant :
    (∀ (m : KVMap) (asset : String) (usd : ℚ),
      walletInvPos m = true → walletInvPos (pushUSD m asset usd) = true)
    ∧ (∀ (m : KVMap) (asset : String) (usd : ℚ),
      walletInvMin m = true → walletInvMin (pushIfMin m asset usd) = true)
    ∧ (∀ m : KVMap, walletInvMin m = true → walletTopOk (buildWalletTop m).2 = true) := by
  refine ⟨?_, ?_, ?_⟩
  · intro m asset usd h
    unfold pushUSD
    split_ifs with h1 h2
    · exact h
    · exact h
    · push_neg at h1
      have hpos : 0 < usd := not_le.1 h2
      unfold walletInvPos at h ⊢
      refine all_mapSet h ?_
      have hval : 0 < (mapGet m asset).getD 0 + usd := by
        cases hg : mapGet m asset with
        | none => simpa using hpos
        | some o =>
          rcases mapGet_some hg with ⟨p, hp, hpk, hpv⟩
          have hinv := walletInvPos_spec h p hp
          rw [Option.getD_some]
          nlinarith [hinv.2.2]
      simp only [Bool.and_eq_true, Bool.not_eq_true', beq_eq_false_iff_ne, ne_eq,
        decide_eq_true_eq]
      refine ⟨⟨h1.1, ?_⟩, hval⟩
      simpa using h1.2
  · intro m asset usd h
    unfold pushIfMin
    split_ifs with hmin
    · unfold pushUSD
      split_ifs with h1 h2
      · exact h
      · exact h
      · push_neg at h1
        unfold walletInvMin at h ⊢
        refine all_mapSet h ?_
        have hval : MIN_USD ≤ (mapGet m asset).getD 0 + usd := by
          cases hg : mapGet m asset with
          | none => simpa using hmin
          | some o =>
            rcases mapGet_some hg with ⟨p, hp, hpk, hpv⟩
            have hinv := walletInvMin_spec h p hp
            rw [Option.getD_some]
            have hmu : (0 : ℚ) < MIN_USD := by norm_num [MIN_USD]
            nlinarith [hinv.2.2]
        simp only [Bool.and_eq_true, Bool.not_eq_true', beq_eq_false_iff_ne, ne_eq,
          decide_eq_true_eq]
        refine ⟨⟨h1.1, ?_⟩, hval⟩
        simpa using h1.2
    · exact h
  · intro m hm
    have hspec := walletInvMin_spec hm
    have hprops := topList_props (fun e => e.usd) (m.map walletEntryOf)
    rw [buildWalletTop_eq]
    dsimp only
    rw [walletTopOk, List.all_eq_true]
    intro e he
    rcases List.mem_map.1 (hprops.2.2 e he) with ⟨p, hp, rfl⟩
    have hinv := hspec p hp
    simp only [Bool.and_eq_true, Bool.not_eq_true', decide_eq_true_eq]
    constructor
    · exact toFix2_pos_of_min hinv.2.2
    · simpa [walletEntryOf] using hinv.2.1

/-- Witness for C10 at concrete maps and arguments. -/
theorem pushUSD_invariant_witness :
    walletInvPos (pushUSD [("AAA", 150)] "BTC" 50) = true ∧
    walletInvPos (pushUSD [("AAA", 150)] "AAA" 1) = true ∧
    walletInvMin (pushIfMin walletMapW "CCC" 500) = true ∧
    walletTopOk (buildWalletTop walletMapW).2 = true :=
  ⟨pushUSD_invariant.1 [("AAA", 150)] "BTC" 50 (by decide),
    pushUSD_invariant.1 [("AAA", 150)] "AAA" 1 (by decide),
    pushUSD_invariant.2.1 walletMapW "CCC" 500 (by decide),
    pushUSD_invariant.2.2 walletMapW (by decide)⟩
